import Mathlib

/- Verification of the QalcTxt line-oriented calculation engine core.
   The Python sources are shallowly embedded: Python strings become `String`
   or `List Char`, Python ints become `Int`, Python floats are idealized as
   `ℚ` (every IEEE double is such a rational), dicts become association
   lists in insertion order, and raised exceptions become `Except` values. -/

/- The Batteries rational primitives are sealed; concrete evaluation of the
embedded formatters needs them to unfold. -/
unseal Rat.add Rat.sub Rat.mul Rat.inv

set_option maxRecDepth 8192

/-- ASCII decimal digit.  (Python's `\d` also matches further Unicode
digits; only the ASCII subset is exercised by the engine.) -/
def pyIsDigit (c : Char) : Bool := 48 ≤ c.toNat && c.toNat ≤ 57

/-- The `[a-zA-Z]` character class of the source regexes. -/
def pyIsAlpha (c : Char) : Bool :=
  (97 ≤ c.toNat && c.toNat ≤ 122) || (65 ≤ c.toNat && c.toNat ≤ 90)

/-- The `\w` word-character class of the source regexes (ASCII subset). -/
def pyIsWord (c : Char) : Bool := pyIsAlpha c || pyIsDigit c || c = '_'

/-- Whitespace as stripped by Python `str.strip` (ASCII subset). -/
def pyIsSpace (c : Char) : Bool :=
  c = ' ' || c = '\t' || c = '\n' || c = '\r' || c = '\x0b' || c = '\x0c'

/-- Python `str.strip` on a character list. -/
def pyStripList (l : List Char) : List Char :=
  ((l.dropWhile pyIsSpace).reverse.dropWhile pyIsSpace).reverse

/-- Python `str.strip`. -/
def pyStrip (s : String) : String := ⟨pyStripList s.data⟩

/-- Python `sub in s` (substring containment). -/
def containsSub (l p : List Char) : Bool :=
  match l with
  | [] => p.isEmpty
  | _ :: t => p.isPrefixOf l || containsSub t p

/-- Python `s.split(c, 1)`: text before the first occurrence of `c`, and
the remainder when `c` occurs at all. -/
def splitFirst (l : List Char) (c : Char) : List Char × Option (List Char) :=
  match l with
  | [] => ([], none)
  | x :: t =>
    if x = c then ([], some t)
    else
      let r := splitFirst t c
      (x :: r.1, r.2)

/-- Python `s.split(c)` (no maxsplit). -/
def splitAll (c : Char) : List Char → List (List Char)
  | [] => [[]]
  | x :: t =>
    let r := splitAll c t
    if x = c then [] :: r
    else
      match r with
      | [] => [[x]]
      | h :: t2 => (x :: h) :: t2

/-- Python `str.lower` (ASCII subset, enough for the `'solve'` checks). -/
def pyLower (l : List Char) : List Char := l.map Char.toLower

/-- Python values that flow through the calculator core: `int`, `float`,
`complex` and `str`. -/
inductive PyVal where
  | intV : Int → PyVal
  | floatV : ℚ → PyVal
  | complexV : ℚ → ℚ → PyVal
  | strV : String → PyVal
deriving DecidableEq

/-- One stored result (`result_manager.ResultData`).  `solutions` holds the
numeric solutions extracted for single-variable equations, and
`variable_solutions` the per-variable solutions of equation systems
(an insertion-ordered dict whose lists may hold `None` placeholders). -/
structure ResultData where
  line_number : Nat
  expression : String
  result : PyVal
  result_type : String
  is_equation : Bool
  solutions : List ℚ
  variable_solutions : List (String × List (Option PyVal))
deriving DecidableEq

/-- The result store: `ResultManager.results`, a dict from line number to
`ResultData` in insertion order. -/
abbrev ResultStore : Type := List (Nat × ResultData)

/-- `CalculatorTextEditor._handle_lines_inserted`: collect all results,
clear the store, and reinsert each entry, adding `insert_count` to the key
and to the entry's own `line_number` when the key is at or after
`insert_position`. -/
def handle_lines_inserted (results : ResultStore) (insert_position insert_count : Nat) :
    ResultStore :=
  results.map fun kv =>
    if insert_position ≤ kv.1 then
      (kv.1 + insert_count, { kv.2 with line_number := kv.1 + insert_count })
    else kv

/-- `CalculatorTextEditor._handle_lines_deleted`: entries with key at or
before `delete_position` are kept, entries with key beyond
`delete_position + delete_count` are shifted down, everything in between
is dropped. -/
def handle_lines_deleted (results : ResultStore) (delete_position delete_count : Nat) :
    ResultStore :=
  results.filterMap fun kv =>
    if kv.1 ≤ delete_position then some kv
    else if delete_position + delete_count < kv.1 then
      some (kv.1 - delete_count, { kv.2 with line_number := kv.1 - delete_count })
    else none

/-- Sample entries used by concrete instances below. -/
def sampleEntry : ResultData :=
  { line_number := 1, expression := "2 + 3", result := .intV 5, result_type := "single",
    is_equation := false, solutions := [], variable_solutions := [] }

def sampleEntryAt (n : Nat) : ResultData := { sampleEntry with line_number := n }

def digitChar (n : Nat) : Char := Char.ofNat ('0'.toNat + n)

def digitVal (c : Char) : Nat := c.toNat - '0'.toNat

/-- Decimal digits of `n`, most significant first (`fuel ≥ n` suffices). -/
def digitsOf : Nat → Nat → List Char
  | 0, n => [digitChar (n % 10)]
  | fuel + 1, n =>
    if n < 10 then [digitChar n] else digitsOf fuel (n / 10) ++ [digitChar (n % 10)]

/-- Decimal digits of a natural number, as printed by Python `str`. -/
def natStr (n : Nat) : List Char := digitsOf n n

/-- Python `str` of an int. -/
def intStr (i : Int) : List Char :=
  if i < 0 then '-' :: natStr i.natAbs else natStr i.natAbs

/-- Numeric value of a digit string (the value the regex groups are
converted to by `int(...)`). -/
def digitsToNat (l : List Char) : Nat := l.foldl (fun a c => 10 * a + digitVal c) 0

/-- Smallest exponent `k < 40` with `q * 10^k` integral, when one exists.
Every IEEE double admits one with `k ≤ 39` would fail only far outside the
engine's range; the fallback below is never reached on modelled values. -/
def decExp (q : ℚ) : Option Nat := (List.range 40).find? (fun k => (q * (10 : ℚ) ^ k).den = 1)

def padZeros (k : Nat) (ds : List Char) : List Char :=
  List.replicate (k - ds.length) '0' ++ ds

def floatStrAux (q : ℚ) (k : Nat) : List Char :=
  let m := (q * (10 : ℚ) ^ k).num.natAbs
  (if q < 0 then ['-'] else []) ++ natStr (m / 10 ^ k) ++ '.' :: padZeros k (natStr (m % 10 ^ k))

/-- Python `str` of a float, idealized over `ℚ`: integral values print with
a trailing `.0`, others as their exact terminating decimal (Python's
shortest round-tripping repr agrees on the decimal values handled here;
the scientific-format regime for extreme magnitudes is outside the
modelled range). -/
def pyFloatStr (q : ℚ) : List Char :=
  match decExp q with
  | some 0 => (if q < 0 then ['-'] else []) ++ natStr q.num.natAbs ++ ['.', '0']
  | some (k + 1) => floatStrAux q (k + 1)
  | none => (toString q).data

/-- A float as printed inside a complex number (no trailing `.0`). -/
def complexPartStr (q : ℚ) : List Char :=
  if q.den = 1 then intStr q.num else pyFloatStr q

/-- Python `str` of a complex number (reachable subset of CPython's
complex repr). -/
def pyComplexStr (re im : ℚ) : List Char :=
  if re = 0 then complexPartStr im ++ ['j']
  else
    '(' :: (complexPartStr re
      ++ (if im < 0 then '-' :: complexPartStr (-im) else '+' :: complexPartStr im)
      ++ ['j', ')'])

/-- The traditional (no variable index) half of `ResultManager.get_result`. -/
def getResultTraditional (rd : ResultData) (solution_index : Option Nat) : Option PyVal :=
  match solution_index with
  | some si =>
    if rd.is_equation && !rd.solutions.isEmpty then
      (rd.solutions.get? si).map PyVal.floatV
    else if si = 0 then some rd.result else none
  | none =>
    if rd.is_equation && !rd.solutions.isEmpty then
      (rd.solutions.head?).map PyVal.floatV
    else some rd.result

/-- `ResultManager.get_result`: fetch a stored result, optionally narrowed
by a solution index and (for systems) a variable index; error entries and
out-of-range indices yield `None`. -/
def get_result (results : ResultStore) (line_number : Nat)
    (solution_index variable_index : Option Nat) : Option PyVal :=
  match List.lookup line_number results with
  | none => none
  | some rd =>
    if rd.result_type = "error" then none
    else
      match variable_index with
      | some vi =>
        if !rd.variable_solutions.isEmpty then
          match rd.variable_solutions.get? vi with
          | some pair =>
            match solution_index with
            | some si =>
              match pair.2.get? si with
              | some x => x
              | none => none
            | none =>
              match pair.2.head? with
              | some x => x
              | none => none
          | none => none
        else getResultTraditional rd solution_index
      | none => getResultTraditional rd solution_index

/-- The `replace_reference` body of
`ExpressionParser.resolve_line_references`: turn a fetched result into
substitution text (complex values get wrapped in parentheses), raising a
`ValueError` for missing results and string-valued results. -/
def replaceReferenceText (line_num : Nat) : Option PyVal → Except String (List Char)
  | none => .error ("第" ++ String.mk (natStr line_num) ++ "行没有结果")
  | some v =>
    match v with
    | .intV i => .ok (intStr i)
    | .floatV q => .ok (pyFloatStr q)
    | .complexV re im => .ok ('(' :: (pyComplexStr re im ++ [')']))
    | .strV s => .error ("第" ++ String.mk (natStr line_num) ++ "行的结果不是数值: " ++ s)

/-- Left-to-right scan of `ExpressionParser.line_ref_pattern`
(`@(\d+)(?:\.(\d+))?`) with callback substitution, as performed by
`re.sub` in `resolve_line_references`.  `fuel` bounds the recursion; the
callers pass the text length, which always suffices. -/
def resolveRefsAux (results : ResultStore) : Nat → List Char → Except String (List Char)
  | 0, l => .ok l
  | _ + 1, [] => .ok []
  | fuel + 1, c :: rest =>
    if c = '@' then
      let ds := rest.takeWhile pyIsDigit
      let rest1 := rest.dropWhile pyIsDigit
      if ds.isEmpty then
        (fun t => c :: t) <$> resolveRefsAux results fuel rest
      else
        match rest1 with
        | '.' :: rest2 =>
          let ds2 := rest2.takeWhile pyIsDigit
          let rest3 := rest2.dropWhile pyIsDigit
          if ds2.isEmpty then
            do
              let repl ← replaceReferenceText (digitsToNat ds)
                (get_result results (digitsToNat ds) none none)
              let t ← resolveRefsAux results fuel rest1
              pure (repl ++ t)
          else
            do
              let repl ← replaceReferenceText (digitsToNat ds)
                (get_result results (digitsToNat ds) (some (digitsToNat ds2)) none)
              let t ← resolveRefsAux results fuel rest3
              pure (repl ++ t)
        | _ =>
          do
            let repl ← replaceReferenceText (digitsToNat ds)
              (get_result results (digitsToNat ds) none none)
            let t ← resolveRefsAux results fuel rest1
            pure (repl ++ t)
    else
      (fun t => c :: t) <$> resolveRefsAux results fuel rest

/-- `ExpressionParser.resolve_line_references`. -/
def resolve_line_references (results : ResultStore) (expression : List Char) :
    Except String (List Char) :=
  resolveRefsAux results (expression.length + 1) expression

/-- `ExpressionParser.remove_comments`: drop the first `#` and all after. -/
def remove_comments (l : List Char) : List Char := (splitFirst l '#').1

/-- `ExpressionParser.parse_expression`: strip, handle blank/comment lines,
resolve `@` references (converting a raised reference error into an error
message expression), and return (expression, is-empty, original text). -/
def parse_expression (text : String) (results : ResultStore) : String × Bool × String :=
  let original := pyStrip text
  if original.data.isEmpty then ("", true, original)
  else
    let expression := remove_comments original.data
    if (pyStripList expression).isEmpty then ("", true, original)
    else
      match resolve_line_references results expression with
      | .ok r => (⟨pyStripList r⟩, false, original)
      | .error e => ("错误: 行引用解析失败 - " ++ e, false, original)

/-- The equation-system shape test shared by
`ExpressionParser.get_expression_type` and `EquationSolver.is_equation`:
the text contains `:` and `,`, the part before the first `:` contains `,`
and the part after it contains `=`. -/
def system_shape (l : List Char) : Bool :=
  if containsSub l [':'] && containsSub l [','] then
    match splitFirst l ':' with
    | (varPart, some eqPart) =>
      containsSub (pyStripList varPart) [','] && containsSub (pyStripList eqPart) ['=']
    | _ => false
  else false

/-- `ExpressionParser.get_expression_type`: classify a line as
`empty` / `equation_system` / `equation` / `numeric`. -/
def get_expression_type (expression : String) : String :=
  if (pyStripList expression.data).isEmpty then "empty"
  else if system_shape expression.data then "equation_system"
  else if containsSub expression.data ['='] &&
      !containsSub (pyLower expression.data) ['s', 'o', 'l', 'v', 'e'] then "equation"
  else if containsSub (pyLower expression.data) ['s', 'o', 'l', 'v', 'e'] then "equation"
  else "numeric"

/-- `EquationSolver.is_equation`. -/
def is_equation_check (expression : List Char) : Bool :=
  system_shape expression ||
    ((containsSub expression ['='] &&
        !containsSub (pyLower expression) ['s', 'o', 'l', 'v', 'e']) ||
      containsSub (pyLower expression) ['s', 'o', 'l', 'v', 'e', '('])

/-- Python `str.startswith`. -/
def pyStartsWith (s pre : List Char) : Bool := pre.isPrefixOf s

/-- Banker's rounding of a rational to an integer (Python `round`). -/
def roundHalfEven (x : ℚ) : ℤ :=
  let f := ⌊x⌋
  let r := x - f
  if r < 1 / 2 then f else if 1 / 2 < r then f + 1 else if f % 2 = 0 then f else f + 1

/-- Scaling by the optional `(?:[eE][-+]?\d+)?` exponent suffix of the
number regex. -/
def matchExponent (v : ℚ) (l : List Char) : ℚ × List Char :=
  match l with
  | c :: t =>
    if c = 'e' || c = 'E' then
      match t with
      | '-' :: t2 =>
        let ds := t2.takeWhile pyIsDigit
        if ds.isEmpty then (v, l) else (v / (10 : ℚ) ^ digitsToNat ds, t2.dropWhile pyIsDigit)
      | '+' :: t2 =>
        let ds := t2.takeWhile pyIsDigit
        if ds.isEmpty then (v, l) else (v * (10 : ℚ) ^ digitsToNat ds, t2.dropWhile pyIsDigit)
      | _ =>
        let ds := t.takeWhile pyIsDigit
        if ds.isEmpty then (v, l) else (v * (10 : ℚ) ^ digitsToNat ds, t.dropWhile pyIsDigit)
    else (v, l)
  | [] => (v, l)

/-- Match of the number regex `[-+]?\d*\.?\d+(?:[eE][-+]?\d+)?` at the
head of the text, returning the `float(...)` of the matched text and the
remainder. -/
def matchNumber (l : List Char) : Option (ℚ × List Char) :=
  let p : Bool × List Char :=
    match l with
    | '-' :: t => (true, t)
    | '+' :: t => (false, t)
    | _ => (false, l)
  let d1 := p.2.takeWhile pyIsDigit
  let r1 := p.2.dropWhile pyIsDigit
  let core : Option (ℚ × List Char) :=
    match r1 with
    | '.' :: r2 =>
      let d2 := r2.takeWhile pyIsDigit
      if d2.isEmpty then
        if d1.isEmpty then none else some ((digitsToNat d1 : ℚ), r1)
      else
        some ((digitsToNat d1 : ℚ) + (digitsToNat d2 : ℚ) / (10 : ℚ) ^ d2.length,
          r2.dropWhile pyIsDigit)
    | _ => if d1.isEmpty then none else some ((digitsToNat d1 : ℚ), r1)
  match core with
  | none => none
  | some (v, r) =>
    let vr := matchExponent v r
    some (if p.1 then -vr.1 else vr.1, vr.2)

/-- Python `float(...)` on a string (core numeric forms; `inf`/`nan` are
outside the modelled range). -/
def pyFloatParse (l : List Char) : Option ℚ :=
  let t := pyStripList l
  let p : Bool × List Char :=
    match t with
    | '-' :: r => (true, r)
    | '+' :: r => (false, r)
    | _ => (false, t)
  let d1 := p.2.takeWhile pyIsDigit
  let r1 := p.2.dropWhile pyIsDigit
  let core : Option (ℚ × List Char) :=
    match r1 with
    | '.' :: r2 =>
      let d2 := r2.takeWhile pyIsDigit
      if d1.isEmpty && d2.isEmpty then none
      else
        some ((digitsToNat d1 : ℚ) + (digitsToNat d2 : ℚ) / (10 : ℚ) ^ d2.length,
          r2.dropWhile pyIsDigit)
    | _ => if d1.isEmpty then none else some ((digitsToNat d1 : ℚ), r1)
  match core with
  | none => none
  | some (v, r) =>
    let vr := matchExponent v r
    if vr.2.isEmpty then some (if p.1 then -vr.1 else vr.1) else none

/-- Non-overlapping left-to-right `re.findall` driver: try the matcher at
every position, resuming after each match. -/
def findAllAux {α : Type} (m : List Char → Option (α × List Char)) :
    Nat → List Char → List α
  | 0, _ => []
  | _ + 1, [] => []
  | fuel + 1, c :: t =>
    match m (c :: t) with
    | some (v, r) =>
      v :: findAllAux m fuel (if r.length < (c :: t).length then r else t)
    | none => findAllAux m fuel t

def findAll {α : Type} (m : List Char → Option (α × List Char)) (l : List Char) : List α :=
  findAllAux m l.length l

/-- `re.search` driver: first match anywhere. -/
def searchFirstAux {α : Type} (m : List Char → Option (α × List Char)) :
    Nat → List Char → Option α
  | 0, _ => none
  | _ + 1, [] => none
  | fuel + 1, c :: t =>
    match m (c :: t) with
    | some (v, _) => some v
    | none => searchFirstAux m fuel t

def searchFirst {α : Type} (m : List Char → Option (α × List Char)) (l : List Char) : Option α :=
  searchFirstAux m l.length l

/-- Match of `x\[(\d+)\]\s*=\s*NUMBER` (the multi-solution pattern of
`ResultData._extract_numeric_solutions`). -/
def matchXBracketNum (l : List Char) : Option (ℚ × List Char) :=
  match l with
  | 'x' :: '[' :: t =>
    let ds := t.takeWhile pyIsDigit
    if ds.isEmpty then none
    else
      match t.dropWhile pyIsDigit with
      | ']' :: r2 =>
        match r2.dropWhile pyIsSpace with
        | '=' :: r4 => matchNumber (r4.dropWhile pyIsSpace)
        | _ => none
      | _ => none
  | _ => none

/-- Match of `x\s*=\s*NUMBER` (the single-solution fallback pattern). -/
def matchXEqNum (l : List Char) : Option (ℚ × List Char) :=
  match l with
  | 'x' :: t =>
    match t.dropWhile pyIsSpace with
    | '=' :: r2 => matchNumber (r2.dropWhile pyIsSpace)
    | _ => none
  | _ => none

/-- `ResultData._extract_numeric_solutions`: collect the `x[i] = v`
matches; if none, fall back to a single `x = v` search. -/
def extract_numeric_solutions (l : List Char) : List ℚ :=
  let sols := findAll matchXBracketNum l
  if sols.isEmpty then
    match searchFirst matchXEqNum l with
    | some v => [v]
    | none => []
  else sols

/-- The `([a-zA-Z]\w*)` variable-name group. -/
def matchVarName (l : List Char) : Option (List Char × List Char) :=
  match l with
  | c :: t =>
    if pyIsAlpha c then some (c :: t.takeWhile pyIsWord, t.dropWhile pyIsWord) else none
  | [] => none

/-- The `[\d\.e\-\+\*/\(\)\w\s]` value character class of
`extract_variable_solutions`. -/
def valClassChar (c : Char) : Bool :=
  pyIsDigit c || c = '.' || c = 'e' || c = '-' || c = '+' || c = '*' || c = '/' ||
    c = '(' || c = ')' || pyIsWord c || pyIsSpace c

/-- Match of `([a-zA-Z]\w*)\[(\d+)\]\s*=\s*([-+]?[class]+)`. -/
def matchVarBracket (l : List Char) :
    Option ((List Char × Nat × List Char) × List Char) :=
  match matchVarName l with
  | some (name, r1) =>
    match r1 with
    | '[' :: r2 =>
      let ds := r2.takeWhile pyIsDigit
      if ds.isEmpty then none
      else
        match r2.dropWhile pyIsDigit with
        | ']' :: r4 =>
          match r4.dropWhile pyIsSpace with
          | '=' :: r6 =>
            let r7 := r6.dropWhile pyIsSpace
            let v := r7.takeWhile valClassChar
            if v.isEmpty then none
            else some ((name, digitsToNat ds, v), r7.dropWhile valClassChar)
          | _ => none
        | _ => none
    | _ => none
  | none => none

/-- Match of `([a-zA-Z]\w*)\s*=\s*([-+]?[class]+)` (simple fallback). -/
def matchVarSimple (l : List Char) : Option ((List Char × List Char) × List Char) :=
  match matchVarName l with
  | some (name, r1) =>
    match r1.dropWhile pyIsSpace with
    | '=' :: r3 =>
      let r4 := r3.dropWhile pyIsSpace
      let v := r4.takeWhile valClassChar
      if v.isEmpty then none else some ((name, v), r4.dropWhile valClassChar)
    | _ => none
  | none => none

/-- Value conversion of `extract_variable_solutions`: expressions with `/`
or `sqrt` keep their text, numeric text within `1e-10` of an integer
becomes that int, other numeric text a float, anything `float()` rejects
keeps its stripped text. -/
def convertBracketValue (v : List Char) : PyVal :=
  if containsSub v ['/'] || containsSub v ['s', 'q', 'r', 't'] then .strV ⟨pyStripList v⟩
  else
    match pyFloatParse v with
    | some q =>
      if |q - (roundHalfEven q : ℚ)| < 1 / 10 ^ 10 then .intV (roundHalfEven q)
      else .floatV q
    | none => .strV ⟨pyStripList v⟩

def padListTo (xs : List (Option PyVal)) (idx : Nat) : List (Option PyVal) :=
  xs ++ List.replicate (idx + 1 - xs.length) none

/-- Dict update `variable_solutions[name][idx] = v` with `None` padding. -/
def setVarIndexed (vs : List (String × List (Option PyVal))) (name : String) (idx : Nat)
    (v : PyVal) : List (String × List (Option PyVal)) :=
  if vs.any (fun p => p.1 = name) then
    vs.map (fun p => if p.1 = name then (p.1, (padListTo p.2 idx).set idx (some v)) else p)
  else vs ++ [(name, (padListTo [] idx).set idx (some v))]

/-- Dict assignment `variable_solutions[name] = xs`. -/
def setVarWhole (vs : List (String × List (Option PyVal))) (name : String)
    (xs : List (Option PyVal)) : List (String × List (Option PyVal)) :=
  if vs.any (fun p => p.1 = name) then
    vs.map (fun p => if p.1 = name then (p.1, xs) else p)
  else vs ++ [(name, xs)]

/-- `ResultData.extract_variable_solutions`: parse per-variable solutions
out of the formatted result string (semicolon-grouped `var[i] = v` form,
with a simple `var = v` fallback). -/
def extract_variable_solutions_impl (l : List Char) : List (String × List (Option PyVal)) :=
  let fromGroups : List (String × List (Option PyVal)) :=
    if containsSub l [';'] then
      (splitAll ';' l).foldl
        (fun vs group =>
          (findAll matchVarBracket (pyStripList group)).foldl
            (fun vs2 m => setVarIndexed vs2 ⟨m.1⟩ m.2.1 (convertBracketValue m.2.2)) vs)
        []
    else []
  if fromGroups.isEmpty then
    (findAll matchVarSimple l).foldl
      (fun vs m => setVarWhole vs ⟨m.1⟩ [some (convertBracketValue m.2)]) []
  else fromGroups

/-- `ResultManager._determine_result_type`. -/
def determine_result_type (result : PyVal) (is_eq : Bool) : String :=
  match result with
  | .strV s =>
    if pyStartsWith s.data "错误".data then "error"
    else if is_eq && (containsSub s.data ['['] || containsSub s.data ['x', '[']) then "multiple"
    else "single"
  | _ => "single"

/-- `ResultData.__init__`: equation entries with string results get their
`solutions` and `variable_solutions` extracted from the formatted text. -/
def mk_result_data (line_number : Nat) (expression : String) (result : PyVal)
    (result_type : String) (is_eq : Bool) : ResultData :=
  { line_number := line_number, expression := expression, result := result,
    result_type := result_type, is_equation := is_eq,
    solutions :=
      match result, is_eq with
      | .strV s, true => extract_numeric_solutions s.data
      | _, _ => [],
    variable_solutions :=
      match result, is_eq with
      | .strV s, true => extract_variable_solutions_impl s.data
      | _, _ => [] }

/-- `ResultManager.store_result` (the `max_line` bookkeeping is not
modelled; no claim concerns it). -/
def store_result (results : ResultStore) (line_number : Nat) (expression : String)
    (result : PyVal) (is_eq : Bool) : ResultStore :=
  let rd := mk_result_data line_number expression result
    (determine_result_type result is_eq) is_eq
  if results.any (fun p => p.1 = line_number) then
    results.map (fun p => if p.1 = line_number then (line_number, rd) else p)
  else results ++ [(line_number, rd)]

/-- A sympy value as seen by the formatting layer: either a number (whose
`float(value.evalf())` succeeds) or a symbolic expression with non-empty
`free_symbols`, kept as its `str(...)` text. -/
inductive SymVal where
  | num : ℚ → SymVal
  | symb : String → SymVal
deriving DecidableEq

/-- One assignment returned by the backend for an equation system: a
positional tuple or a dict keyed by variable name. -/
inductive SolAssign where
  | tup : List SymVal → SolAssign
  | dict : List (String × SymVal) → SolAssign
deriving DecidableEq

/-- Outcome shapes of the backend `sympy.solve` call on an equation
system (spec §4.4): a single dict assignment, a list of assignments, or
some other object kept as text. -/
inductive SolveSysOutcome where
  | dictSol : List (String × SymVal) → SolveSysOutcome
  | listSol : List SolAssign → SolveSysOutcome
  | otherSol : String → SolveSysOutcome
deriving DecidableEq

/-- `%.10g` formatting of a rational (the `f"{v:.10g}"` rendering used by
`_format_multi_solution_system`), modelled for the plain and scientific
regimes. -/
def pyFmt10g (q : ℚ) : String :=
  if q = 0 then "0"
  else
    let n := |q|
    let e : ℤ :=
      if 1 ≤ n then ((natStr (⌊n⌋).toNat).length : ℤ) - 1
      else
        match (List.range 400).find? (fun k => (1 : ℚ) ≤ n * (10 : ℚ) ^ (k + 1)) with
        | some k => -((k : ℤ) + 1)
        | none => 0
    let m0 := (roundHalfEven (n * (10 : ℚ) ^ ((9 : ℤ) - e))).toNat
    let me := if m0 = 10 ^ 10 then ((10 : Nat) ^ 9, e + 1) else (m0, e)
    let ds := natStr me.1
    let sig0 := (ds.reverse.dropWhile (fun c => c = '0')).reverse
    let sig := if sig0.isEmpty then ['0'] else sig0
    let body :=
      if -4 ≤ me.2 && me.2 < 10 then
        if 0 ≤ me.2 then
          let ip := me.2.toNat + 1
          if sig.length ≤ ip then sig ++ List.replicate (ip - sig.length) '0'
          else sig.take ip ++ '.' :: sig.drop ip
        else '0' :: '.' :: (List.replicate (me.2.natAbs - 1) '0' ++ sig)
      else
        let exDs := natStr me.2.natAbs
        let exDigits := if exDs.length < 2 then '0' :: exDs else exDs
        (sig.take 1 ++ (if sig.length = 1 then [] else '.' :: sig.drop 1))
          ++ 'e' :: (if me.2 < 0 then '-' else '+') :: exDigits
    ⟨if q < 0 then '-' :: body else body⟩

/-- Value rendering of `_format_multi_solution_system`: a numeric value
within `1e-10` of an integer prints as that integer, other numeric values
print with 10 significant digits, and symbolic values (where `float`
raises) keep their text. -/
def renderSystemValue (v : SymVal) : String :=
  match v with
  | .num q =>
    if |q - (roundHalfEven q : ℚ)| < 1 / 10 ^ 10 then ⟨intStr (roundHalfEven q)⟩
    else pyFmt10g q
  | .symb s => s

/-- The per-variable value collection of `_format_multi_solution_system`:
tuples of the right arity contribute positionally, dicts by name, other
assignments are skipped. -/
def collectVarSolutions (solutions : List SolAssign) (numVars varIdx : Nat)
    (var : String) : List String :=
  solutions.filterMap fun sol =>
    match sol with
    | .tup vals =>
      if vals.length = numVars then (vals.get? varIdx).map renderSystemValue else none
    | .dict m => (m.lookup var).map renderSystemValue

/-- `EquationSolver._format_multi_solution_system`: one segment per
declared variable that received at least one value (`var = v`, or the
indexed `var[i] = vi` list joined with `", "`), segments joined with
`"; "`. -/
def format_multi_solution_system (solutions : List SolAssign) (vars : List String) :
    String :=
  String.intercalate "; " <|
    vars.enum.filterMap fun p =>
      match collectVarSolutions solutions vars.length p.1 p.2 with
      | [] => none
      | [v] => some (p.2 ++ " = " ++ v)
      | vs => some (String.intercalate ", "
          (vs.enum.map (fun q => p.2 ++ "[" ++ String.mk (natStr q.1) ++ "] = " ++ q.2)))

/-- Value rendering in the single-assignment branches of
`_solve_equation_system`: exact integers print as ints, other numeric
values via plain `str(float)`, symbolic values verbatim. -/
def renderAssignValue (v : SymVal) : String :=
  match v with
  | .num q => if q.den = 1 then ⟨intStr q.num⟩ else ⟨pyFloatStr q⟩
  | .symb s => s

/-- The result-formatting stage of `EquationSolver._solve_equation_system`
(lines 104–143): a dict outcome (and a singleton dict in a list) joins
`var = value` segments with `", "`; other lists go through
`_format_multi_solution_system`; the empty list is `"无解"`. -/
def format_system_outcome (outcome : SolveSysOutcome) (vars : List String) : String :=
  match outcome with
  | .dictSol m =>
    String.intercalate ", " (vars.filterMap fun var =>
      (m.lookup var).map (fun value => var ++ " = " ++ renderAssignValue value))
  | .listSol [] => "无解"
  | .listSol [.dict m] =>
    String.intercalate ", " (vars.filterMap fun var =>
      (m.lookup var).map (fun value => var ++ " = " ++ renderAssignValue value))
  | .listSol sols => format_multi_solution_system sols vars
  | .otherSol s => s

/-- One `x[i] = v` part of `_format_solutions`' multi-solution output. -/
def formatSolutionPart (i : Nat) (v : SymVal) : String :=
  match v with
  | .symb s => "x[" ++ String.mk (natStr i) ++ "] = " ++ s
  | .num q =>
    if q.den = 1 then "x[" ++ String.mk (natStr i) ++ "] = " ++ String.mk (intStr q.num)
    else "x[" ++ String.mk (natStr i) ++ "] = " ++ String.mk (pyFloatStr q)

/-- `EquationSolver._format_solutions`: single-equation result formatting.
A single symbolic solution is returned verbatim; a single numeric solution
prints as `x = <int>` exactly when `float.is_integer()` holds and as
`x = <str(float)>` otherwise; multiple solutions are `x[i] = vi` joined
with `", "`. -/
def format_solutions (solutions : List SymVal) : String :=
  match solutions with
  | [] => "无解"
  | [solution] =>
    match solution with
    | .symb s => s
    | .num q =>
      if q.den = 1 then "x = " ++ String.mk (intStr q.num)
      else "x = " ++ String.mk (pyFloatStr q)
  | _ => String.intercalate ", " (solutions.enum.map (fun p => formatSolutionPart p.1 p.2))

/-- The per-variable segment rule as the spec words it (§4.4 "System
formatting"), used to state C4 against the embedded formatter. -/
def specVariableSegment (solutions : List SolAssign) (numVars varIdx : Nat)
    (var : String) : Option String :=
  match collectVarSolutions solutions numVars varIdx var with
  | [] => none
  | [v] => some (var ++ " = " ++ v)
  | vs => some (String.intercalate ", "
      (vs.enum.map (fun q => var ++ "[" ++ String.mk (natStr q.1) ++ "] = " ++ q.2)))

/-- Python `str.replace` for a single-character pattern. -/
def charReplace (src : Char) (tgt : List Char) : List Char → List Char
  | [] => []
  | c :: t => (if c = src then tgt else [c]) ++ charReplace src tgt t

/-- One `re.sub` pass for a two-character juxtaposition pattern
`(X)(Y) → \1*\2`: scan left to right, insert `*` between matching pairs,
resume after each match. -/
def sub2 (p : Char → Char → Bool) : List Char → List Char
  | [] => []
  | [c] => [c]
  | c1 :: c2 :: rest =>
    if p c1 c2 then c1 :: '*' :: c2 :: sub2 p rest
    else c1 :: sub2 p (c2 :: rest)

/-- The digit-letter juxtaposition `(\d)([a-zA-Z])`. -/
def dlPair (a b : Char) : Bool := pyIsDigit a && pyIsAlpha b

/-- The letter-digit juxtaposition `([a-zA-Z])(\d)`. -/
def ldPair (a b : Char) : Bool := pyIsAlpha a && pyIsDigit b

/-- The paren-digit juxtaposition `\)(\d)`. -/
def pdPair (a b : Char) : Bool := a = ')' && pyIsDigit b

/-- The digit-paren juxtaposition `(\d)\(`. -/
def dpPair (a b : Char) : Bool := pyIsDigit a && b = '('

/-- `CalculatorEngine._preprocess_expression`: strip, replace the `^`,
`×`, `÷` glyphs, then apply the four implicit-multiplication
substitutions in order. -/
def preprocess_expression (expression : String) : String :=
  ⟨sub2 dpPair (sub2 pdPair (sub2 ldPair (sub2 dlPair
    (charReplace '÷' ['/'] (charReplace '×' ['*'] (charReplace '^' ['*', '*']
      (pyStripList expression.data)))))))⟩

/-- No two adjacent characters form a `p`-pair (so the corresponding
`re.sub` pass is the identity). -/
def noPairB (p : Char → Char → Bool) : List Char → Bool
  | [] => true
  | [_] => true
  | c1 :: c2 :: rest => !p c1 c2 && noPairB p (c2 :: rest)

/-- Exception kinds distinguished by `CalculatorEngine.calculate`'s
`except` clauses. -/
inductive PyErr where
  | zeroDiv : PyErr
  | valueErr : String → PyErr
  | syntaxErr : String → PyErr
  | nameErr : String → PyErr
  | typeErr : String → PyErr
deriving DecidableEq

/-- Tokens of the closed arithmetic grammar.  Modelled from the spec
(§1, §9.1): raw expression evaluation is delegated to a grammar-limited
arithmetic evaluator (Python `eval` over the restricted namespace /
`sympy.sympify`); this tokenizer covers the closed operator set the
engine feeds it. -/
inductive Tok where
  | numT : PyVal → Tok
  | identT : List Char → Tok
  | opT : Char → Tok
  | lparT : Tok
  | rparT : Tok
deriving DecidableEq

/-- Tokenizer of the modelled evaluator grammar; `fuel` at least the text
length always suffices.  Number literals follow Python: `12`, `12.5`,
`12.` (an int when there is no decimal point). -/
def tokenize : Nat → List Char → Except PyErr (List Tok)
  | 0, _ => .error (.syntaxErr "invalid syntax")
  | _ + 1, [] => .ok []
  | fuel + 1, c :: rest =>
    if pyIsSpace c then tokenize fuel rest
    else if pyIsDigit c then
      let ds := (c :: rest).takeWhile pyIsDigit
      let r1 := (c :: rest).dropWhile pyIsDigit
      match r1 with
      | '.' :: r2 =>
        let ds2 := r2.takeWhile pyIsDigit
        (tokenize fuel (r2.dropWhile pyIsDigit)).map
          (fun ts => .numT (.floatV ((digitsToNat ds : ℚ)
            + (digitsToNat ds2 : ℚ) / (10 : ℚ) ^ ds2.length)) :: ts)
      | _ =>
        (tokenize fuel r1).map (fun ts => .numT (.intV (digitsToNat ds)) :: ts)
    else if pyIsAlpha c || c = '_' then
      (tokenize fuel ((c :: rest).dropWhile pyIsWord)).map
        (fun ts => .identT ((c :: rest).takeWhile pyIsWord) :: ts)
    else if c = '+' || c = '-' || c = '*' || c = '/' then
      (tokenize fuel rest).map (fun ts => .opT c :: ts)
    else if c = '(' then (tokenize fuel rest).map (fun ts => .lparT :: ts)
    else if c = ')' then (tokenize fuel rest).map (fun ts => .rparT :: ts)
    else .error (.syntaxErr ("invalid character " ++ ⟨[c]⟩))

/-- Term representation shared by the modelled evaluator and the modelled
`sympify` (spec §4.4's symbolic backend interface). -/
inductive SymExpr where
  | numE : PyVal → SymExpr
  | symE : List Char → SymExpr
  | addE : SymExpr → SymExpr → SymExpr
  | subE : SymExpr → SymExpr → SymExpr
  | mulE : SymExpr → SymExpr → SymExpr
  | divE : SymExpr → SymExpr → SymExpr
  | negE : SymExpr → SymExpr
  | eqE : SymExpr → SymExpr → SymExpr
deriving DecidableEq

mutual

/-- Atom of the modelled grammar: literal, name, or parenthesized
expression. -/
def parseAtomT : Nat → List Tok → Except PyErr (SymExpr × List Tok)
  | 0, _ => .error (.syntaxErr "invalid syntax")
  | fuel + 1, ts =>
    match ts with
    | .numT v :: r => .ok (.numE v, r)
    | .identT n :: r => .ok (.symE n, r)
    | .lparT :: r =>
      match parseAddT fuel r with
      | .ok (v, .rparT :: r2) => .ok (v, r2)
      | .ok _ => .error (.syntaxErr "invalid syntax")
      | .error e => .error e
    | _ => .error (.syntaxErr "invalid syntax")

/-- Unary `+`/`-` level. -/
def parseFactorT : Nat → List Tok → Except PyErr (SymExpr × List Tok)
  | 0, _ => .error (.syntaxErr "invalid syntax")
  | fuel + 1, ts =>
    match ts with
    | .opT '-' :: r =>
      match parseFactorT fuel r with
      | .ok (v, r2) => .ok (.negE v, r2)
      | .error e => .error e
    | .opT '+' :: r => parseFactorT fuel r
    | _ => parseAtomT fuel ts

/-- `*`/`/` level. -/
def parseTermT : Nat → List Tok → Except PyErr (SymExpr × List Tok)
  | 0, _ => .error (.syntaxErr "invalid syntax")
  | fuel + 1, ts =>
    match parseFactorT fuel ts with
    | .ok (v, r) => parseTermLoop fuel v r
    | .error e => .error e

def parseTermLoop : Nat → SymExpr → List Tok → Except PyErr (SymExpr × List Tok)
  | 0, _, _ => .error (.syntaxErr "invalid syntax")
  | fuel + 1, acc, ts =>
    match ts with
    | .opT '*' :: r =>
      match parseFactorT fuel r with
      | .ok (v, r2) => parseTermLoop fuel (.mulE acc v) r2
      | .error e => .error e
    | .opT '/' :: r =>
      match parseFactorT fuel r with
      | .ok (v, r2) => parseTermLoop fuel (.divE acc v) r2
      | .error e => .error e
    | _ => .ok (acc, ts)

/-- `+`/`-` level. -/
def parseAddT : Nat → List Tok → Except PyErr (SymExpr × List Tok)
  | 0, _ => .error (.syntaxErr "invalid syntax")
  | fuel + 1, ts =>
    match parseTermT fuel ts with
    | .ok (v, r) => parseAddLoop fuel v r
    | .error e => .error e

def parseAddLoop : Nat → SymExpr → List Tok → Except PyErr (SymExpr × List Tok)
  | 0, _, _ => .error (.syntaxErr "invalid syntax")
  | fuel + 1, acc, ts =>
    match ts with
    | .opT '+' :: r =>
      match parseTermT fuel r with
      | .ok (v, r2) => parseAddLoop fuel (.addE acc v) r2
      | .error e => .error e
    | .opT '-' :: r =>
      match parseTermT fuel r with
      | .ok (v, r2) => parseAddLoop fuel (.subE acc v) r2
      | .error e => .error e
    | _ => .ok (acc, ts)

end

/-- Parse a whole token stream as one expression. -/
def parseExprToks (ts : List Tok) : Except PyErr SymExpr :=
  match parseAddT (5 * ts.length + 5) ts with
  | .ok (v, []) => .ok v
  | .ok _ => .error (.syntaxErr "invalid syntax")
  | .error e => .error e

def pyToComplexParts : PyVal → Option (ℚ × ℚ)
  | .intV n => some ((n : ℚ), 0)
  | .floatV q => some (q, 0)
  | .complexV a b => some (a, b)
  | .strV _ => none

def isComplexVal : PyVal → Bool
  | .complexV _ _ => true
  | _ => false

def isFloatVal : PyVal → Bool
  | .floatV _ => true
  | _ => false

def mkNumVal (isC isF : Bool) (re im : ℚ) : PyVal :=
  if isC then .complexV re im else if isF then .floatV re else .intV re.num

/-- Python numeric arithmetic with the usual int/float/complex promotion
(float idealized over `ℚ`; the IEEE rounding of each operation is not
modelled). -/
def pyArith (o : Char) (a b : PyVal) : Except PyErr PyVal :=
  match pyToComplexParts a, pyToComplexParts b with
  | some (ar, ai), some (br, bi) =>
    let isC := isComplexVal a || isComplexVal b
    let isF := isFloatVal a || isFloatVal b
    if o = '+' then .ok (mkNumVal isC isF (ar + br) (ai + bi))
    else if o = '-' then .ok (mkNumVal isC isF (ar - br) (ai - bi))
    else if o = '*' then .ok (mkNumVal isC isF (ar * br - ai * bi) (ar * bi + ai * br))
    else if o = '/' then
      if br = 0 ∧ bi = 0 then .error .zeroDiv
      else if isC then
        let d := br * br + bi * bi
        .ok (.complexV ((ar * br + ai * bi) / d) ((ai * br - ar * bi) / d))
      else .ok (.floatV (ar / br))
    else .error (.typeErr "unsupported operand")
  | _, _ => .error (.typeErr "unsupported operand")

def pyNeg : PyVal → Except PyErr PyVal
  | .intV n => .ok (.intV (-n))
  | .floatV q => .ok (.floatV (-q))
  | .complexV a b => .ok (.complexV (-a) (-b))
  | .strV _ => .error (.typeErr "bad operand type")

/-- The modelled slice of `CalculatorEngine.safe_dict`: only the names the
verified claims evaluate.  Other safe names would resolve in the Python
namespace; texts reaching the claims below never mention them. -/
def safeName : List Char → Option PyVal
  | ['j'] => some (.complexV 0 1)
  | _ => none

/-- Evaluation of a parsed term in the restricted namespace (the Python
`eval(processed_expr, {}, safe_dict)` call). -/
def evalAst : SymExpr → Except PyErr PyVal
  | .numE v => .ok v
  | .symE n =>
    match safeName n with
    | some v => .ok v
    | none => .error (.nameErr ("name '" ++ ⟨n⟩ ++ "' is not defined"))
  | .addE a b => do pyArith '+' (← evalAst a) (← evalAst b)
  | .subE a b => do pyArith '-' (← evalAst a) (← evalAst b)
  | .mulE a b => do pyArith '*' (← evalAst a) (← evalAst b)
  | .divE a b => do pyArith '/' (← evalAst a) (← evalAst b)
  | .negE a => do pyNeg (← evalAst a)
  | .eqE _ _ => .error (.syntaxErr "invalid syntax")

/-- The modelled `eval` on expression text. -/
def pyEval (l : List Char) : Except PyErr PyVal := do
  let ts ← tokenize (l.length + 1) l
  let e ← parseExprToks ts
  evalAst e

/-- Modelled from the spec (§4.4): `sympy.sympify` on the engine's closed
grammar — parse the text into a term, free symbols allowed; text outside
the grammar raises. -/
def sympifyModel (l : List Char) : Except String SymExpr :=
  match tokenize (l.length + 1) l with
  | .error _ => .error ("Sympify of expression failed: " ++ ⟨l⟩)
  | .ok ts =>
    match parseExprToks ts with
    | .ok e => .ok e
    | .error _ => .error ("Sympify of expression failed: " ++ ⟨l⟩)

/-- The error strings produced by `CalculatorEngine.calculate`'s `except`
clauses. -/
def errMessage : PyErr → String
  | .zeroDiv => "错误: 除零错误"
  | .valueErr m => "错误: 数值错误 - " ++ m
  | .syntaxErr m => "错误: 语法错误 - " ++ m
  | .nameErr m => "错误: 未知函数或变量 - " ++ m
  | .typeErr m => "错误: " ++ m

/-- Python `round(q, 10)` (banker's rounding at ten decimal places,
idealized over `ℚ`). -/
def roundQ10 (q : ℚ) : ℚ := (roundHalfEven (q * 10 ^ 10) : ℚ) / 10 ^ 10

/-- `_format_result` on a float: exact integers collapse to int, others
are rounded to ten decimals. -/
def formatFloatVal (q : ℚ) : PyVal :=
  if q.den = 1 then .intV q.num else .floatV (roundQ10 q)

/-- `str(...)` of a formatted numeric part (int or float). -/
def pyValNumStr : PyVal → List Char
  | .intV n => intStr n
  | .floatV q => pyFloatStr q
  | .complexV re im => pyComplexStr re im
  | .strV s => s.data

/-- `CalculatorEngine._format_result`. -/
def format_result_val : PyVal → PyVal
  | .intV n => .intV n
  | .floatV q => formatFloatVal q
  | .complexV re im =>
    if im = 0 then formatFloatVal re
    else if re = 0 then
      if im = 1 then .strV "j"
      else if im = -1 then .strV "-j"
      else .strV ⟨pyValNumStr (formatFloatVal im) ++ ['j']⟩
    else
      if |im| = 1 then
        .strV ⟨pyValNumStr (formatFloatVal re)
          ++ (if 0 ≤ im then '+' else '-') :: ['j']⟩
      else
        .strV ⟨pyValNumStr (formatFloatVal re)
          ++ (if 0 ≤ im then '+' else '-') :: (pyValNumStr (formatFloatVal |im|) ++ ['j'])⟩
  | .strV s => .strV s

/-- `CalculatorEngine.calculate`: preprocess, evaluate in the restricted
namespace, format, converting every exception into an error string. -/
def calculate (expression : String) : PyVal :=
  match pyEval (preprocess_expression expression).data with
  | .ok v => format_result_val v
  | .error e => .strV (errMessage e)

/-- The `\)([a-zA-Z\d])` juxtaposition of `_preprocess_equation`. -/
def prPair (a b : Char) : Bool := a = ')' && (pyIsAlpha b || pyIsDigit b)

/-- The `([a-zA-Z\d])\(` head of `_preprocess_equation`'s last pattern. -/
def pwPair (a b : Char) : Bool := (pyIsAlpha a || pyIsDigit a) && b = '('

/-- `re.sub` pass for a two-character pattern with a negative lookahead on
the following character (the lookahead consumes nothing). -/
def sub2la (p : Char → Char → Bool) (bad : Char → Bool) : List Char → List Char
  | [] => []
  | [c] => [c]
  | c1 :: c2 :: rest =>
    if p c1 c2 && !(match rest.head? with | some d => bad d | none => false) then
      c1 :: '*' :: c2 :: sub2la p bad rest
    else c1 :: sub2la p bad (c2 :: rest)

/-- `EquationSolver._preprocess_equation`: for solver calls only the power
glyph is replaced; otherwise glyphs are replaced and the juxtaposition
substitutions applied, the last with a lookahead protecting function
calls. -/
def preprocess_equation (equation_str : List Char) : List Char :=
  let eq := pyStripList equation_str
  if containsSub (pyLower eq) ['s', 'o', 'l', 'v', 'e', '('] then
    charReplace '^' ['*', '*'] eq
  else
    sub2la pwPair (fun d => pyIsAlpha d || d = '_')
      (sub2 prPair (sub2 ldPair (sub2 dlPair
        (charReplace '÷' ['/'] (charReplace '×' ['*'] (charReplace '^' ['*', '*'] eq))))))

/-- The capability-gated solver backend (spec §4.4): `sympy.solve` on a
single expression/equation, and on an equation system.  The theorems
below hold for every backend. -/
structure SolverBackend where
  solveEq : SymExpr → List Char → List SymVal
  solveSystem : List (SymExpr × SymExpr) → List String → SolveSysOutcome

/-- A placeholder backend used only to state concrete instances whose
evaluation provably never reaches the backend. -/
def trivialBackend : SolverBackend :=
  { solveEq := fun _ _ => [], solveSystem := fun _ _ => .listSol [] }

def freeSymbols : SymExpr → List (List Char)
  | .numE _ => []
  | .symE s => [s]
  | .addE a b => freeSymbols a ++ freeSymbols b
  | .subE a b => freeSymbols a ++ freeSymbols b
  | .mulE a b => freeSymbols a ++ freeSymbols b
  | .divE a b => freeSymbols a ++ freeSymbols b
  | .negE a => freeSymbols a
  | .eqE a b => freeSymbols a ++ freeSymbols b

/-- `EquationSolver._parse_solve_manually`: the anchored
`solve\(([^,]+),\s*([^)]+)\)` match, then sympify and solve. -/
def parse_solve_manually (backend : SolverBackend) (equation_str : List Char) :
    Except String (List SymVal) :=
  let s := pyStripList equation_str
  if ['s', 'o', 'l', 'v', 'e', '('].isPrefixOf s then
    let r := s.drop 6
    let expr_str := r.takeWhile (fun c => c ≠ ',')
    match r.dropWhile (fun c => c ≠ ',') with
    | ',' :: r2 =>
      if expr_str.isEmpty then .error ("无法解析solve函数调用格式: " ++ ⟨equation_str⟩)
      else
        let r3 := r2.dropWhile pyIsSpace
        let var_str := r3.takeWhile (fun c => c ≠ ')')
        match r3.dropWhile (fun c => c ≠ ')') with
        | ')' :: _ =>
          if var_str.isEmpty then .error ("无法解析solve函数调用格式: " ++ ⟨equation_str⟩)
          else
            match sympifyModel (charReplace '^' ['*', '*'] (pyStripList expr_str)) with
            | .ok e => .ok (backend.solveEq e (pyStripList var_str))
            | .error e => .error ("solve函数解析失败: " ++ e)
        | _ => .error ("无法解析solve函数调用格式: " ++ ⟨equation_str⟩)
    | _ => .error ("无法解析solve函数调用格式: " ++ ⟨equation_str⟩)
  else .error ("无法解析solve函数调用格式: " ++ ⟨equation_str⟩)

/-- `EquationSolver._handle_solve_function`. -/
def handle_solve_function (backend : SolverBackend) (equation_str : List Char) :
    Except String (List SymVal) :=
  (parse_solve_manually backend (charReplace '^' ['*', '*'] equation_str)).mapError
    (fun e => "solve函数执行失败: " ++ e)

/-- `EquationSolver._handle_equation_with_equals`.  The no-free-symbol
branch (`return [equation]`) is modelled coarsely as a symbolic value; no
verified claim reaches it. -/
def handle_equation_with_equals (backend : SolverBackend) (equation_str : List Char) :
    Except String (List SymVal) :=
  match splitAll '=' equation_str with
  | [left, right] =>
    match sympifyModel (pyStripList left) with
    | .error e => .error e
    | .ok le =>
      match sympifyModel (pyStripList right) with
      | .error e => .error e
      | .ok re =>
        if (freeSymbols le ++ freeSymbols re).isEmpty then .ok [.symb "Eq"]
        else
          match freeSymbols le ++ freeSymbols re with
          | v :: _ => .ok (backend.solveEq (.eqE le re) v)
          | [] => .ok [.symb "Eq"]
  | _ => .error "方程格式错误，应包含一个等号"

/-- `EquationSolver._solve_with_sympy`. -/
def solve_with_sympy (backend : SolverBackend) (equation_str : List Char) :
    Except String (List SymVal) :=
  if containsSub (pyLower equation_str) ['s', 'o', 'l', 'v', 'e', '('] then
    handle_solve_function backend equation_str
  else if containsSub equation_str ['='] then
    handle_equation_with_equals backend equation_str
  else .error ("无法识别的表达式格式: " ++ ⟨equation_str⟩)

/-- The solving prefix of `EquationSolver._solve_equation_system`: parse
variables and equations, sympify both sides with `^` replaced, call the
backend, and format the outcome. -/
def solve_equation_system (backend : SolverBackend) (var_part eq_part : List Char) :
    Except String String := do
  let vars := (splitAll ',' var_part).map pyStripList
  let equation_strs := (splitAll ',' eq_part).map pyStripList
  let eqs ← equation_strs.mapM (fun eq_str => do
    if !containsSub eq_str ['='] then
      throw ("方程 '" ++ (⟨eq_str⟩ : String) ++ "' 缺少等号")
    else
      match splitFirst eq_str '=' with
      | (left, some right) => do
        let le ← sympifyModel (charReplace '^' ['*', '*'] (pyStripList left))
        let re ← sympifyModel (charReplace '^' ['*', '*'] (pyStripList right))
        pure (le, re)
      | _ => throw "方程格式错误")
  pure (format_system_outcome (backend.solveSystem eqs (vars.map String.mk))
    (vars.map String.mk))

/-- `EquationSolver.solve_equation` (sympy availability is modelled as
present): system-shaped input goes to the system solver, other input
through preprocessing and `_solve_with_sympy`; every raised error becomes
a `"错误: 方程求解失败 - ..."` string. -/
def solve_equation (backend : SolverBackend) (equation_str : String) : String :=
  let l := equation_str.data
  let sysCase : Option (Except String String) :=
    if containsSub l [':'] && containsSub l [','] then
      match splitFirst l ':' with
      | (var_part, some eq_part) =>
        let vp := pyStripList var_part
        let ep := pyStripList eq_part
        if containsSub vp [','] && containsSub ep ['='] then
          some ((solve_equation_system backend vp ep).mapError
            (fun e => "方程组求解失败: " ++ e))
        else none
      | _ => none
    else none
  let res : Except String String :=
    match sysCase with
    | some r => r
    | none =>
      match solve_with_sympy backend (preprocess_equation l) with
      | .ok sols => .ok (format_solutions sols)
      | .error e => .error e
  match res with
  | .ok r => r
  | .error e => "错误: 方程求解失败 - " ++ e

/-- `CalculatorTextEditor._calculate_line`: parse (resolving references),
skip blank lines, classify, evaluate with the matching evaluator and
store the result.  Every inner step of the model is total, so the
Python-level `except` fallback is unreachable here. -/
def calculate_line (backend : SolverBackend) (results : ResultStore) (line_number : Nat)
    (line_content : String) : ResultStore :=
  let p := parse_expression line_content results
  if p.2.1 then results
  else
    let is_eq := is_equation_check p.1.data
    let result : PyVal :=
      if is_eq then .strV (solve_equation backend p.1)
      else calculate p.1
    store_result results line_number p.2.2 result is_eq

/-- `CalculatorTextEditor.calculate_all_lines`: clear the store, then one
sequential pass over the document, skipping blank lines. -/
def calculate_all_lines (backend : SolverBackend) (lines : List String) : ResultStore :=
  (lines.enum.map (fun p => (p.1 + 1, p.2))).foldl
    (fun rm p => if (pyStrip p.2).data.isEmpty then rm else calculate_line backend rm p.1 p.2)
    ([] : ResultStore)

/-- A store holding a plain numeric result `7` at line 1. -/
def storeLine1Numeric : ResultStore :=
  [(1, { line_number := 1, expression := "7", result := .intV 7, result_type := "single",
         is_equation := false, solutions := [], variable_solutions := [] })]

/-- C2: on insertion of `k` lines at `p`, entries with key `≥ p` are
relocated to `key + k` (with only the entry's `line_number` field moved in
step) and entries with key `< p` are untouched; on deletion of `k` lines at
`p`, entries with key `≤ p` are untouched, keys in `(p, p+k]` are
discarded, and keys `> p + k` move to `key - k` — stated as a membership
characterization of both renumbering operations. -/
theorem renumbering_protocol (results : ResultStore) (p k : Nat) :
    (∀ a : Nat × ResultData,
      a ∈ handle_lines_inserted results p k ↔
        ((a ∈ results ∧ a.1 < p) ∨
         (∃ k0 e, (k0, e) ∈ results ∧ p ≤ k0 ∧
            a = (k0 + k, { e with line_number := k0 + k })))) ∧
    (∀ a : Nat × ResultData,
      a ∈ handle_lines_deleted results p k ↔
        ((a ∈ results ∧ a.1 ≤ p) ∨
         (∃ k0 e, (k0, e) ∈ results ∧ p + k < k0 ∧
            a = (k0 - k, { e with line_number := k0 - k })))) := by
  constructor
  · intro a
    constructor
    · intro h
      rcases List.mem_map.mp h with ⟨kv, hkv, heq⟩
      by_cases hp : p ≤ kv.1
      · right
        refine ⟨kv.1, kv.2, hkv, hp, ?_⟩
        simp only [hp, if_true] at heq
        exact heq.symm
      · left
        simp only [hp, if_false] at heq
        subst heq
        exact ⟨hkv, Nat.lt_of_not_le hp⟩
    · intro h
      rcases h with ⟨ha, hlt⟩ | ⟨k0, e, hmem, hle, rfl⟩
      · refine List.mem_map.mpr ⟨a, ha, ?_⟩
        simp [Nat.not_le.mpr hlt]
      · refine List.mem_map.mpr ⟨(k0, e), hmem, ?_⟩
        simp [hle]
  · intro a
    constructor
    · intro h
      rcases List.mem_filterMap.mp h with ⟨kv, hkv, heq⟩
      by_cases h1 : kv.1 ≤ p
      · left
        simp only [h1, if_true, Option.some.injEq] at heq
        subst heq
        exact ⟨hkv, h1⟩
      · by_cases h2 : p + k < kv.1
        · right
          refine ⟨kv.1, kv.2, hkv, h2, ?_⟩
          simp only [h1, if_false, h2, if_true, Option.some.injEq] at heq
          exact heq.symm
        · simp [h1, h2] at heq
    · intro h
      rcases h with ⟨ha, hle⟩ | ⟨k0, e, hmem, hgt, rfl⟩
      · refine List.mem_filterMap.mpr ⟨a, ha, ?_⟩
        simp [hle]
      · refine List.mem_filterMap.mpr ⟨(k0, e), hmem, ?_⟩
        have h1 : ¬ k0 ≤ p := by omega
        simp [h1, hgt]

/-- C5 counterexample: inserting one line at position 1 and then deleting
one line at position 1 does not restore a store holding an entry at key 1 —
the insertion moves key `p` to `p + k`, which the deletion then discards
(it lies in `(p, p+k]`), so the round trip loses the entry. -/
theorem insert_then_delete_not_involutive :
    handle_lines_deleted (handle_lines_inserted [(1, sampleEntry)] 1 1) 1 1
      ≠ [(1, sampleEntry)] := by
  decide

/-- C5 amended: insert-then-delete of `k > 0` lines at position `p` keeps
every entry whose key is below `p` unchanged, discards the entry at key
exactly `p`, and restores every entry above `p` to its key with the entry's
`line_number` forced to that key (so content is fully restored exactly when
`line_number` matched the key beforehand). -/
theorem insert_then_delete_characterization
    (results : ResultStore) (p k : Nat) (hk : 0 < k) :
    handle_lines_deleted (handle_lines_inserted results p k) p k
      = results.filterMap fun kv =>
          if kv.1 = p then none
          else if kv.1 < p then some kv
          else some (kv.1, { kv.2 with line_number := kv.1 }) := by
  unfold handle_lines_inserted handle_lines_deleted
  rw [List.filterMap_map]
  congr 1
  funext kv
  by_cases h1 : p ≤ kv.1
  · by_cases h2 : kv.1 = p
    · have : ¬ kv.1 + k ≤ p := by omega
      have h3 : ¬ p + k < kv.1 + k := by omega
      simp [Function.comp, h1, h2, this, h3]
      omega
    · have hgt : p < kv.1 := by omega
      have h3 : ¬ kv.1 + k ≤ p := by omega
      have h4 : p + k < kv.1 + k := by omega
      have h5 : ¬ kv.1 < p := by omega
      simp [Function.comp, h1, h2, h3, h4, h5, Nat.add_sub_cancel]
  · have h2 : kv.1 ≤ p := by omega
    have h3 : kv.1 ≠ p := by omega
    have h4 : kv.1 < p := by omega
    simp [Function.comp, h1, h2, h3, h4]

/-- C5 amended, witnessed at a concrete store: an entry at key 2 (above the
edit position 1, with matching `line_number`) survives the insert/delete
round trip unchanged. -/
theorem insert_then_delete_characterization_witness :
    handle_lines_deleted (handle_lines_inserted [(2, sampleEntryAt 2)] 1 1) 1 1
      = [(2, sampleEntryAt 2)] := by
  rw [insert_then_delete_characterization [(2, sampleEntryAt 2)] 1 1 (by decide)]
  decide

/-- C1: the reference resolver's regex `@(\d+)(?:\.(\d+))?` has no third
group, so a three-index token `@1.0.0` over a non-system line is consumed
only as `@1.0`; the substitution succeeds with the leftover `.0` glued to
the substituted value (here `7` becomes `7.0`) instead of resolving
`variable_solutions` or raising a reference error — contradicting the
documented `@行号.变量索引.解索引` contract of `ResultManager.get_result`
and `test_complex_references.py`. -/
theorem three_index_reference_silently_mangled :
    resolve_line_references storeLine1Numeric "@1.0.0".data = .ok "7.0".data := by
  rfl

/-- C8 counterexample: `"absolve"` contains the substring `solve` but not a
`solve(...)` invocation and has no `=`, so by the claim it should classify
as `numeric`; the code tests only the bare substring `'solve'` and
classifies it `equation`. -/
theorem classify_solve_substring_counterexample :
    get_expression_type "absolve" = "equation" ∧ get_expression_type "absolve" ≠ "numeric" := by
  constructor
  · decide
  · decide

/-- C8 amended: `get_expression_type` is total over the four kinds, checks
the system shape before the plain-equation test, classifies any non-system
string containing `=` as `equation`, classifies any non-system string
containing the substring `solve` (case-insensitively, parentheses not
required) as `equation`, and classifies a string matching none of the
criteria as `numeric`. -/
theorem classify_amended (s : String) :
    (get_expression_type s = "empty" ∨ get_expression_type s = "equation_system" ∨
      get_expression_type s = "equation" ∨ get_expression_type s = "numeric") ∧
    ((pyStripList s.data).isEmpty = false → system_shape s.data = true →
      get_expression_type s = "equation_system") ∧
    ((pyStripList s.data).isEmpty = false → system_shape s.data = false →
      containsSub s.data ['='] = true → get_expression_type s = "equation") ∧
    ((pyStripList s.data).isEmpty = false → system_shape s.data = false →
      containsSub (pyLower s.data) ['s', 'o', 'l', 'v', 'e'] = true →
      get_expression_type s = "equation") ∧
    ((pyStripList s.data).isEmpty = false → system_shape s.data = false →
      containsSub s.data ['='] = false →
      containsSub (pyLower s.data) ['s', 'o', 'l', 'v', 'e'] = false →
      get_expression_type s = "numeric") := by
  unfold get_expression_type
  cases h0 : (pyStripList s.data).isEmpty <;>
    cases h1 : system_shape s.data <;>
      cases h2 : containsSub s.data ['='] <;>
        cases h3 : containsSub (pyLower s.data) ['s', 'o', 'l', 'v', 'e'] <;>
          simp [h0, h1, h2, h3]

/-- C8 amended, witnessed: `"x=1"` is non-blank, not system-shaped and
contains `=`, so it classifies as `equation`. -/
theorem classify_amended_witness : get_expression_type "x=1" = "equation" :=
  (classify_amended "x=1").2.2.1 (by decide) (by decide) (by decide)

/-- C9 counterexample: storing the single-equation result string
`"x = 3"` populates, in one entry, the scalar `result`, a non-empty
`solutions` list and a non-empty `variable_solutions` mapping, while the
entry is not error-kind — both solution views are extracted from the same
formatted string, so "exactly one of the four descriptions" fails. -/
theorem result_entry_views_not_exclusive :
    (List.lookup 1 (store_result [] 1 "x=3" (.strV "x = 3") true)).map
        (fun rd => (rd.result_type, rd.solutions.isEmpty, rd.variable_solutions.isEmpty))
      = some ("single", false, false) := by
  decide

/-- C9 amended: for non-equation entries the invariant does hold — the
extraction step is gated on `is_equation`, so `solutions` and
`variable_solutions` stay empty and only the scalar `result` describes the
entry's content; equation entries with string results may populate both
solution views at once. -/
theorem result_entry_non_equation_views_empty (line_number : Nat) (expression : String)
    (result : PyVal) (result_type : String) :
    (mk_result_data line_number expression result result_type false).solutions = [] ∧
    (mk_result_data line_number expression result result_type false).variable_solutions = [] := by
  cases result <;> simp [mk_result_data]

/-- C4 counterexample: on `x,y:x+y=5,x-y=1` the backend returns the single
assignment `{x: 3, y: 2}` (spec §4.4's "single assignment" outcome for a
determinate linear system), and `_solve_equation_system`'s dict branch
joins the segments with `", "` — the formatted result is
`"x = 3, y = 2"`, not the claimed `"x = 3; y = 2"`. -/
theorem system_scenario_counterexample :
    format_system_outcome (.dictSol [("x", .num 3), ("y", .num 2)]) ["x", "y"]
        = "x = 3, y = 2" ∧
    format_system_outcome (.dictSol [("x", .num 3), ("y", .num 2)]) ["x", "y"]
        ≠ "x = 3; y = 2" := by
  constructor
  · rfl
  · decide

/-- C4 amended: only the multi-solution list branch
(`_format_multi_solution_system`) produces one segment per declared
variable (skipping variables that received no value) joined with `"; "`;
a single-assignment outcome joins `var = value` segments with `", "`, so
`x,y:x+y=5,x-y=1` formats as `"x = 3, y = 2"`. -/
theorem system_formatting_amended (solutions : List SolAssign) (vars : List String)
    (m : List (String × SymVal)) :
    format_multi_solution_system solutions vars
      = String.intercalate "; "
          (vars.enum.filterMap fun p =>
            specVariableSegment solutions vars.length p.1 p.2) ∧
    format_system_outcome (.dictSol m) vars
      = String.intercalate ", " (vars.filterMap fun var =>
          (m.lookup var).map (fun value => var ++ " = " ++ renderAssignValue value)) := by
  constructor
  · rfl
  · rfl

/-- C7 counterexample: the value `2 + 10⁻¹²` is within `1e-10` of the
integer `2`, yet single-equation formatting (`_format_solutions`) checks
exact `float.is_integer()` and renders the plain float text
`"x = 2.000000000001"` rather than the claimed integer rendering
`"x = 2"`. -/
theorem single_solution_tolerance_counterexample :
    |(2 + 1 / 10 ^ 12 : ℚ) - (2 : ℚ)| < 1 / 10 ^ 10 ∧
    format_solutions [.num (2 + 1 / 10 ^ 12)] = "x = 2.000000000001" ∧
    format_solutions [.num (2 + 1 / 10 ^ 12)] ≠ "x = 2" := by
  refine ⟨by decide, by decide, by decide⟩

/-- C7 amended: the `1e-10`-tolerance integer coercion and the
10-significant-digit float rendering govern equation-system
(multi-solution) formatting, while single-equation formatting coerces to
an integer only on exact integrality and otherwise uses Python's default
float string; symbolic values are rendered verbatim by both. -/
theorem numeric_coercion_amended (q : ℚ) (s : String) :
    (|q - (roundHalfEven q : ℚ)| < 1 / 10 ^ 10 →
      renderSystemValue (.num q) = String.mk (intStr (roundHalfEven q))) ∧
    (¬ |q - (roundHalfEven q : ℚ)| < 1 / 10 ^ 10 →
      renderSystemValue (.num q) = pyFmt10g q) ∧
    renderSystemValue (.symb s) = s ∧
    (q.den = 1 → format_solutions [.num q] = "x = " ++ String.mk (intStr q.num)) ∧
    (q.den ≠ 1 → format_solutions [.num q] = "x = " ++ String.mk (pyFloatStr q)) ∧
    format_solutions [.symb s] = s := by
  refine ⟨?_, ?_, rfl, ?_, ?_, rfl⟩
  · intro h
    show (if |q - (roundHalfEven q : ℚ)| < 1 / 10 ^ 10
        then String.mk (intStr (roundHalfEven q)) else pyFmt10g q) = _
    rw [if_pos h]
  · intro h
    show (if |q - (roundHalfEven q : ℚ)| < 1 / 10 ^ 10
        then String.mk (intStr (roundHalfEven q)) else pyFmt10g q) = _
    rw [if_neg h]
  · intro h
    show (if q.den = 1 then "x = " ++ String.mk (intStr q.num)
        else "x = " ++ String.mk (pyFloatStr q)) = _
    rw [if_pos h]
  · intro h
    show (if q.den = 1 then "x = " ++ String.mk (intStr q.num)
        else "x = " ++ String.mk (pyFloatStr q)) = _
    rw [if_neg h]

/-- C7 amended, witnessed at `q = 1/2` and a symbolic value: the system
formatter renders `0.5` (10 significant digits) and the single-equation
formatter renders `x = 0.5` (plain float string). -/
theorem numeric_coercion_amended_witness :
    renderSystemValue (.num (1 / 2)) = "0.5" ∧
    format_solutions [.num (1 / 2)] = "x = 0.5" ∧
    format_solutions [.symb "y + 1"] = "y + 1" := by
  refine ⟨?_, ?_, (numeric_coercion_amended (1 / 2) "y + 1").2.2.2.2.2⟩
  · rw [(numeric_coercion_amended (1 / 2) "y + 1").2.1 (by decide)]
    decide
  · rw [(numeric_coercion_amended (1 / 2) "y + 1").2.2.2.2.1 (by decide)]
    decide

theorem charReplace_append (src : Char) (tgt : List Char) (a b : List Char) :
    charReplace src tgt (a ++ b) = charReplace src tgt a ++ charReplace src tgt b := by
  induction a with
  | nil => rfl
  | cons c t ih => simp [charReplace, ih]

theorem charReplace_eq_self (src : Char) (tgt : List Char) :
    ∀ l : List Char, (∀ c ∈ l, c ≠ src) → charReplace src tgt l = l := by
  intro l
  induction l with
  | nil => intro _; rfl
  | cons c t ih =>
    intro h
    simp only [charReplace]
    rw [if_neg (h c (by simp))]
    simp [ih fun x hx => h x (by simp [hx])]

theorem mem_charReplace (src : Char) (tgt : List Char) :
    ∀ l : List Char, ∀ c, c ∈ charReplace src tgt l → c ∈ tgt ∨ (c ∈ l ∧ c ≠ src) := by
  intro l
  induction l with
  | nil => intro c hc; simp [charReplace] at hc
  | cons d t ih =>
    intro c hc
    simp only [charReplace, List.mem_append] at hc
    rcases hc with hc | hc
    · by_cases hd : d = src
      · rw [if_pos hd] at hc; exact Or.inl hc
      · rw [if_neg hd] at hc
        simp at hc
        subst hc
        exact Or.inr ⟨by simp, hd⟩
    · rcases ih c hc with h | ⟨h1, h2⟩
      · exact Or.inl h
      · exact Or.inr ⟨by simp [h1], h2⟩

theorem charReplace_reverse (src : Char) (tgt : List Char) (hp : tgt.reverse = tgt) :
    ∀ l : List Char, (charReplace src tgt l).reverse = charReplace src tgt l.reverse := by
  intro l
  induction l with
  | nil => rfl
  | cons c t ih =>
    show ((if c = src then tgt else [c]) ++ charReplace src tgt t).reverse = _
    rw [List.reverse_append, ih, List.reverse_cons, charReplace_append]
    congr 1
    by_cases hc : c = src
    · simp [charReplace, hc, hp]
    · simp [charReplace, hc]

theorem charReplace_head_nonspace (src : Char) (tgt : List Char)
    (htgt : ∀ c ∈ tgt, pyIsSpace c = false) (htne : tgt ≠ [])
    (l : List Char) (hl : ∀ c, l.head? = some c → pyIsSpace c = false) :
    ∀ c, (charReplace src tgt l).head? = some c → pyIsSpace c = false := by
  intro c hc
  cases l with
  | nil => simp [charReplace] at hc
  | cons d t =>
    simp only [charReplace] at hc
    by_cases hd : d = src
    · rw [if_pos hd] at hc
      cases tgt with
      | nil => exact absurd rfl htne
      | cons x xs =>
        have hx : x = c := by
          have hv : ((x :: xs) ++ charReplace src (x :: xs) t).head? = some x := rfl
          rw [hv] at hc
          exact (Option.some.injEq _ _).mp hc
        subst hx
        exact htgt _ (by simp)
    · rw [if_neg hd] at hc
      have hx : d = c := by
        have hv : (([d]) ++ charReplace src tgt t).head? = some d := rfl
        rw [hv] at hc
        exact (Option.some.injEq _ _).mp hc
      subst hx
      exact hl _ rfl

theorem charReplace_getLast_nonspace (src : Char) (tgt : List Char)
    (htgt : ∀ c ∈ tgt, pyIsSpace c = false) (htne : tgt ≠ []) (hpal : tgt.reverse = tgt)
    (l : List Char) (hl : ∀ c, l.getLast? = some c → pyIsSpace c = false) :
    ∀ c, (charReplace src tgt l).getLast? = some c → pyIsSpace c = false := by
  intro c hc
  rw [← List.head?_reverse, charReplace_reverse src tgt hpal] at hc
  refine charReplace_head_nonspace src tgt htgt htne l.reverse ?_ c hc
  intro x hx
  rw [List.head?_reverse] at hx
  exact hl x hx

theorem sub2_head? (p : Char → Char → Bool) :
    ∀ l : List Char, (sub2 p l).head? = l.head?
  | [] => rfl
  | [_] => rfl
  | c1 :: c2 :: rest => by
    by_cases hp : p c1 c2 = true <;> simp [sub2, hp]

theorem sub2_getLast? (p : Char → Char → Bool) :
    ∀ l : List Char, (sub2 p l).getLast? = l.getLast?
  | [] => rfl
  | [_] => rfl
  | c1 :: c2 :: rest => by
    have ih2 := sub2_getLast? p (c2 :: rest)
    by_cases hp : p c1 c2 = true
    · cases hr : rest with
      | nil => simp [sub2, hp]
      | cons d rest' =>
        have ih := sub2_getLast? p rest
        rw [hr] at ih
        simp only [sub2, if_pos hp]
        have hh : (sub2 p (d :: rest')).head? = some d := by rw [sub2_head?]; rfl
        cases hs : sub2 p (d :: rest') with
        | nil => rw [hs] at hh; simp at hh
        | cons e t' =>
          rw [hs] at hh
          simp only [List.head?_cons, Option.some.injEq] at hh
          rw [hh] at hs
          rw [hh]
          simp only [List.getLast?_cons_cons]
          rw [← hs, ih]
    · simp only [sub2, if_neg hp]
      have hh : (sub2 p (c2 :: rest)).head? = some c2 := by rw [sub2_head?]; rfl
      cases hs : sub2 p (c2 :: rest) with
      | nil => rw [hs] at hh; simp at hh
      | cons e t' =>
        rw [hs] at hh
        simp only [List.head?_cons, Option.some.injEq] at hh
        rw [hh] at hs
        rw [hh]
        simp only [List.getLast?_cons_cons]
        rw [← hs, ih2]

theorem mem_sub2 (p : Char → Char → Bool) :
    ∀ l : List Char, ∀ c, c ∈ sub2 p l → c = '*' ∨ c ∈ l
  | [] => by intro c hc; simp [sub2] at hc
  | [d] => by
    intro c hc
    simp [sub2] at hc
    simp [hc]
  | c1 :: c2 :: rest => by
    intro c hc
    by_cases hp : p c1 c2 = true
    · simp only [sub2, if_pos hp] at hc
      simp only [List.mem_cons] at hc
      rcases hc with rfl | rfl | rfl | hc
      · exact Or.inr (by simp)
      · exact Or.inl rfl
      · exact Or.inr (by simp)
      · rcases mem_sub2 p rest c hc with h | h
        · exact Or.inl h
        · exact Or.inr (by simp [h])
    · simp only [sub2, if_neg hp] at hc
      simp only [List.mem_cons] at hc
      rcases hc with rfl | hc
      · exact Or.inr (by simp)
      · rcases mem_sub2 p (c2 :: rest) c hc with h | h
        · exact Or.inl h
        · exact Or.inr (by simp [List.mem_cons] at h ⊢; tauto)

theorem noPairB_cons_eq (p : Char → Char → Bool) (x : Char) (l : List Char) :
    noPairB p (x :: l)
      = ((match l.head? with | none => true | some h => !p x h) && noPairB p l) := by
  cases l <;> rfl

theorem noPairB_tail (p : Char → Char → Bool) (x : Char) (l : List Char)
    (h : noPairB p (x :: l) = true) : noPairB p l = true := by
  rw [noPairB_cons_eq] at h
  exact (Bool.and_eq_true_iff.mp h).2

theorem sub2_eq_self (p : Char → Char → Bool) :
    ∀ l : List Char, noPairB p l = true → sub2 p l = l
  | [] => by intro _; rfl
  | [_] => by intro _; rfl
  | c1 :: c2 :: rest => by
    intro h
    simp only [noPairB, Bool.and_eq_true, Bool.not_eq_true'] at h
    have hp : ¬ (p c1 c2 = true) := by simp [h.1]
    simp only [sub2, if_neg hp]
    rw [sub2_eq_self p (c2 :: rest) h.2]

theorem noPairB_sub2_self (p : Char → Char → Bool)
    (hb : ∀ a, p a '*' = false) (hA : ∀ b, p '*' b = false)
    (hc : ∀ a b, p a b = true → ∀ d, p b d = false) :
    ∀ l : List Char, noPairB p (sub2 p l) = true
  | [] => rfl
  | [_] => rfl
  | c1 :: c2 :: rest => by
    by_cases hp : p c1 c2 = true
    · have hrec := noPairB_sub2_self p hb hA hc rest
      simp only [sub2, if_pos hp, noPairB, Bool.and_eq_true, Bool.not_eq_true']
      refine ⟨hb c1, hA c2, ?_⟩
      rw [noPairB_cons_eq, hrec, Bool.and_true]
      cases hs : (sub2 p rest).head? with
      | none => rfl
      | some d =>
        rw [sub2_head?] at hs
        simp [hc c1 c2 hp d]
    · have hrec := noPairB_sub2_self p hb hA hc (c2 :: rest)
      simp only [sub2, if_neg hp]
      rw [noPairB_cons_eq, hrec, Bool.and_true]
      cases hs : (sub2 p (c2 :: rest)).head? with
      | none => rfl
      | some d =>
        rw [sub2_head?] at hs
        simp only [List.head?_cons, Option.some.injEq] at hs
        subst hs
        simp at hp
        simp [hp]

theorem noPairB_sub2_preserve (p q : Char → Char → Bool)
    (hb : ∀ a, p a '*' = false) (hA : ∀ b, p '*' b = false) :
    ∀ l : List Char, noPairB p l = true → noPairB p (sub2 q l) = true
  | [] => by intro _; rfl
  | [_] => by intro _; rfl
  | c1 :: c2 :: rest => by
    intro h
    simp only [noPairB, Bool.and_eq_true, Bool.not_eq_true'] at h
    by_cases hq : q c1 c2 = true
    · have hrec := noPairB_sub2_preserve p q hb hA rest (noPairB_tail p c2 rest h.2)
      simp only [sub2, if_pos hq, noPairB, Bool.and_eq_true, Bool.not_eq_true']
      refine ⟨hb c1, hA c2, ?_⟩
      rw [noPairB_cons_eq, hrec, Bool.and_true]
      cases hs : (sub2 q rest).head? with
      | none => rfl
      | some d =>
        rw [sub2_head?] at hs
        have h2 := h.2
        rw [noPairB_cons_eq, hs] at h2
        simp only [Bool.and_eq_true, Bool.not_eq_true'] at h2
        simp [h2.1]
    · have hrec := noPairB_sub2_preserve p q hb hA (c2 :: rest) h.2
      simp only [sub2, if_neg hq]
      rw [noPairB_cons_eq, hrec, Bool.and_true]
      cases hs : (sub2 q (c2 :: rest)).head? with
      | none => rfl
      | some d =>
        rw [sub2_head?] at hs
        simp only [List.head?_cons, Option.some.injEq] at hs
        subst hs
        simp [h.1]

theorem head?_dropWhile_space :
    ∀ l : List Char, ∀ c, (l.dropWhile pyIsSpace).head? = some c → pyIsSpace c = false
  | [] => by intro c hc; simp [List.dropWhile] at hc
  | d :: t => by
    intro c hc
    by_cases hd : pyIsSpace d = true
    · rw [List.dropWhile_cons, if_pos hd] at hc
      exact head?_dropWhile_space t c hc
    · rw [List.dropWhile_cons, if_neg hd] at hc
      simp at hc
      subst hc
      simpa using hd

theorem stripped_of_ends (l : List Char)
    (h1 : ∀ c, l.head? = some c → pyIsSpace c = false)
    (h2 : ∀ c, l.getLast? = some c → pyIsSpace c = false) :
    pyStripList l = l := by
  have e1 : l.dropWhile pyIsSpace = l := by
    cases l with
    | nil => rfl
    | cons a t =>
      have := h1 a rfl
      simp [List.dropWhile_cons, this]
  have e2 : l.reverse.dropWhile pyIsSpace = l.reverse := by
    cases hr : l.reverse with
    | nil => rfl
    | cons a t =>
      have ha : l.getLast? = some a := by
        rw [← List.head?_reverse, hr]
        rfl
      have := h2 a ha
      simp [List.dropWhile_cons, this]
  unfold pyStripList
  rw [e1, e2, List.reverse_reverse]

theorem pyStripList_head (l : List Char) :
    ∀ c, (pyStripList l).head? = some c → pyIsSpace c = false := by
  intro c hc
  have hpref : pyStripList l <+: l.dropWhile pyIsSpace := by
    have h1 : ((l.dropWhile pyIsSpace).reverse.dropWhile pyIsSpace)
        <:+ (l.dropWhile pyIsSpace).reverse := List.dropWhile_suffix _
    have h2 := List.reverse_prefix.mpr h1
    rw [List.reverse_reverse] at h2
    exact h2
  obtain ⟨t, ht⟩ := hpref
  have hA : (l.dropWhile pyIsSpace).head? = some c := by
    rw [← ht]
    cases hps : pyStripList l with
    | nil => rw [hps] at hc; simp at hc
    | cons x xs =>
      rw [hps] at hc
      simp at hc
      subst hc
      rfl
  exact head?_dropWhile_space l c hA

theorem pyStripList_getLast (l : List Char) :
    ∀ c, (pyStripList l).getLast? = some c → pyIsSpace c = false := by
  intro c hc
  unfold pyStripList at hc
  rw [List.getLast?_reverse] at hc
  exact head?_dropWhile_space _ c hc

theorem alpha_not_digit (c : Char) (h : pyIsAlpha c = true) : pyIsDigit c = false := by
  by_cases hd : pyIsDigit c = true
  · exfalso
    simp only [pyIsAlpha, Bool.or_eq_true, Bool.and_eq_true, decide_eq_true_eq] at h
    simp only [pyIsDigit, Bool.and_eq_true, decide_eq_true_eq] at hd
    omega
  · simpa using hd

theorem digit_not_alpha (c : Char) (h : pyIsDigit c = true) : pyIsAlpha c = false := by
  by_cases hd : pyIsAlpha c = true
  · exfalso
    simp only [pyIsAlpha, Bool.or_eq_true, Bool.and_eq_true, decide_eq_true_eq] at hd
    simp only [pyIsDigit, Bool.and_eq_true, decide_eq_true_eq] at h
    omega
  · simpa using hd

theorem dlPair_star_r (a : Char) : dlPair a '*' = false := by
  simp only [dlPair]
  rw [show pyIsAlpha '*' = false by decide, Bool.and_false]

theorem dlPair_star_l (b : Char) : dlPair '*' b = false := by
  simp only [dlPair]
  rw [show pyIsDigit '*' = false by decide, Bool.false_and]

theorem dlPair_chain (a b : Char) (h : dlPair a b = true) (d : Char) : dlPair b d = false := by
  simp only [dlPair, Bool.and_eq_true] at h
  simp only [dlPair]
  rw [alpha_not_digit b h.2, Bool.false_and]

theorem ldPair_star_r (a : Char) : ldPair a '*' = false := by
  simp only [ldPair]
  rw [show pyIsDigit '*' = false by decide, Bool.and_false]

theorem ldPair_star_l (b : Char) : ldPair '*' b = false := by
  simp only [ldPair]
  rw [show pyIsAlpha '*' = false by decide, Bool.false_and]

theorem ldPair_chain (a b : Char) (h : ldPair a b = true) (d : Char) : ldPair b d = false := by
  simp only [ldPair, Bool.and_eq_true] at h
  simp only [ldPair]
  rw [digit_not_alpha b h.2, Bool.false_and]

theorem pdPair_star_r (a : Char) : pdPair a '*' = false := by
  simp only [pdPair]
  rw [show pyIsDigit '*' = false by decide, Bool.and_false]

theorem pdPair_star_l (b : Char) : pdPair '*' b = false := by
  simp only [pdPair]
  rw [show decide ('*' = ')') = false by decide, Bool.false_and]

theorem pdPair_chain (a b : Char) (h : pdPair a b = true) (d : Char) : pdPair b d = false := by
  simp only [pdPair, Bool.and_eq_true, decide_eq_true_eq] at h
  simp only [pdPair]
  have hb : ¬ (b = ')') := by
    intro he
    subst he
    exact absurd h.2 (by decide)
  rw [decide_eq_false hb, Bool.false_and]

theorem dpPair_star_r (a : Char) : dpPair a '*' = false := by
  simp only [dpPair]
  rw [show decide ('*' = '(') = false by decide, Bool.and_false]

theorem dpPair_star_l (b : Char) : dpPair '*' b = false := by
  simp only [dpPair]
  rw [show pyIsDigit '*' = false by decide, Bool.false_and]

theorem dpPair_chain (a b : Char) (h : dpPair a b = true) (d : Char) : dpPair b d = false := by
  simp only [dpPair, Bool.and_eq_true, decide_eq_true_eq] at h
  simp only [dpPair]
  have hb : pyIsDigit b = false := by
    rw [h.2]
    decide
  rw [hb, Bool.false_and]

theorem preprocess_core_idem (l : List Char) :
    sub2 dpPair (sub2 pdPair (sub2 ldPair (sub2 dlPair
      (charReplace '÷' ['/'] (charReplace '×' ['*'] (charReplace '^' ['*', '*']
        (pyStripList (sub2 dpPair (sub2 pdPair (sub2 ldPair (sub2 dlPair
          (charReplace '÷' ['/'] (charReplace '×' ['*'] (charReplace '^' ['*', '*']
            (pyStripList l)))))))))))))))
    = sub2 dpPair (sub2 pdPair (sub2 ldPair (sub2 dlPair
        (charReplace '÷' ['/'] (charReplace '×' ['*'] (charReplace '^' ['*', '*']
          (pyStripList l))))))) := by
  set e3 := charReplace '÷' ['/'] (charReplace '×' ['*'] (charReplace '^' ['*', '*']
    (pyStripList l))) with he3
  set O := sub2 dpPair (sub2 pdPair (sub2 ldPair (sub2 dlPair e3))) with hO
  -- (1) the output is already stripped
  have hhead : ∀ c, O.head? = some c → pyIsSpace c = false := by
    intro c hc
    rw [hO, sub2_head?, sub2_head?, sub2_head?, sub2_head?] at hc
    rw [he3] at hc
    refine charReplace_head_nonspace _ _ (by decide) (by decide) _
      (charReplace_head_nonspace _ _ (by decide) (by decide) _
        (charReplace_head_nonspace _ _ (by decide) (by decide) _
          (pyStripList_head l))) c hc
  have hlast : ∀ c, O.getLast? = some c → pyIsSpace c = false := by
    intro c hc
    rw [hO, sub2_getLast?, sub2_getLast?, sub2_getLast?, sub2_getLast?] at hc
    rw [he3] at hc
    refine charReplace_getLast_nonspace _ _ (by decide) (by decide) (by decide) _
      (charReplace_getLast_nonspace _ _ (by decide) (by decide) (by decide) _
        (charReplace_getLast_nonspace _ _ (by decide) (by decide) (by decide) _
          (pyStripList_getLast l))) c hc
  have hstrip : pyStripList O = O := stripped_of_ends O hhead hlast
  -- (2) the output holds none of the replaced glyphs
  have hglyph : ∀ c ∈ O, c ≠ '^' ∧ c ≠ '×' ∧ c ≠ '÷' := by
    intro c hc
    rw [hO] at hc
    rcases mem_sub2 _ _ _ hc with rfl | hc1
    · exact ⟨by decide, by decide, by decide⟩
    rcases mem_sub2 _ _ _ hc1 with rfl | hc2
    · exact ⟨by decide, by decide, by decide⟩
    rcases mem_sub2 _ _ _ hc2 with rfl | hc3
    · exact ⟨by decide, by decide, by decide⟩
    rcases mem_sub2 _ _ _ hc3 with rfl | hc4
    · exact ⟨by decide, by decide, by decide⟩
    rw [he3] at hc4
    rcases mem_charReplace _ _ _ _ hc4 with hv | ⟨hc5, hne3⟩
    · simp at hv
      subst hv
      exact ⟨by decide, by decide, by decide⟩
    rcases mem_charReplace _ _ _ _ hc5 with hv | ⟨hc6, hne2⟩
    · simp at hv
      subst hv
      exact ⟨by decide, by decide, by decide⟩
    rcases mem_charReplace _ _ _ _ hc6 with hv | ⟨_, hne1⟩
    · simp at hv
      subst hv
      exact ⟨by decide, by decide, by decide⟩
    exact ⟨hne1, hne2, hne3⟩
  -- (3) no juxtaposition pair survives in the output
  have hdl : noPairB dlPair O = true := by
    rw [hO]
    refine noPairB_sub2_preserve _ _ dlPair_star_r dlPair_star_l _
      (noPairB_sub2_preserve _ _ dlPair_star_r dlPair_star_l _
        (noPairB_sub2_preserve _ _ dlPair_star_r dlPair_star_l _
          (noPairB_sub2_self _ dlPair_star_r dlPair_star_l dlPair_chain _)))
  have hld : noPairB ldPair O = true := by
    rw [hO]
    refine noPairB_sub2_preserve _ _ ldPair_star_r ldPair_star_l _
      (noPairB_sub2_preserve _ _ ldPair_star_r ldPair_star_l _
        (noPairB_sub2_self _ ldPair_star_r ldPair_star_l ldPair_chain _))
  have hpd : noPairB pdPair O = true := by
    rw [hO]
    exact noPairB_sub2_preserve _ _ pdPair_star_r pdPair_star_l _
      (noPairB_sub2_self _ pdPair_star_r pdPair_star_l pdPair_chain _)
  have hdp : noPairB dpPair O = true := by
    rw [hO]
    exact noPairB_sub2_self _ dpPair_star_r dpPair_star_l dpPair_chain _
  -- assemble: the second pass is the identity stage by stage
  rw [hstrip]
  rw [charReplace_eq_self '^' ['*', '*'] O (fun c hc => (hglyph c hc).1)]
  rw [charReplace_eq_self '×' ['*'] O (fun c hc => (hglyph c hc).2.1)]
  rw [charReplace_eq_self '÷' ['/'] O (fun c hc => (hglyph c hc).2.2)]
  rw [sub2_eq_self dlPair O hdl, sub2_eq_self ldPair O hld, sub2_eq_self pdPair O hpd,
    sub2_eq_self dpPair O hdp]

/-- C10: the preprocessor normalization of `CalculatorEngine` (strip, glyph
replacement, and the four implicit-multiplication substitutions) is
idempotent — applying it to its own output changes nothing. -/
theorem preprocess_idempotent (s : String) :
    preprocess_expression (preprocess_expression s) = preprocess_expression s :=
  congrArg String.mk (preprocess_core_idem s.data)

theorem digitChar_toNat (m : Nat) (h : m < 10) : (digitChar m).toNat = 48 + m := by
  interval_cases m <;> decide

theorem pyIsDigit_digitChar (m : Nat) (h : m < 10) : pyIsDigit (digitChar m) = true := by
  simp only [pyIsDigit, digitChar_toNat m h, Bool.and_eq_true, decide_eq_true_eq]
  omega

theorem digitVal_digitChar (m : Nat) (h : m < 10) : digitVal (digitChar m) = m := by
  simp only [digitVal, digitChar_toNat m h, show ('0').toNat = 48 from rfl]
  omega

theorem digit_not_space (c : Char) (h : pyIsDigit c = true) : pyIsSpace c = false := by
  simp only [pyIsDigit, Bool.and_eq_true, decide_eq_true_eq] at h
  simp only [pyIsSpace, Bool.or_eq_false_iff, decide_eq_false_iff_not]
  refine ⟨⟨⟨⟨⟨?_, ?_⟩, ?_⟩, ?_⟩, ?_⟩, ?_⟩ <;>
    (intro hc; subst hc; exact absurd h (by decide))

theorem good_not_space (c : Char) (h : pyIsDigit c = true ∨ c = '-' ∨ c = '.') :
    pyIsSpace c = false := by
  rcases h with h | h | h
  · exact digit_not_space c h
  · subst h; decide
  · subst h; decide

theorem digit_ne (c x : Char) (h : pyIsDigit c = true) (hx : pyIsDigit x = false) : c ≠ x := by
  intro hc
  subst hc
  rw [h] at hx
  exact Bool.noConfusion hx

theorem good_ne (c x : Char) (h : pyIsDigit c = true ∨ c = '-' ∨ c = '.')
    (hx : pyIsDigit x = false) (hx1 : x ≠ '-') (hx2 : x ≠ '.') : c ≠ x := by
  rcases h with h | h | h
  · exact digit_ne c x h hx
  · subst h; exact fun hc => hx1 hc.symm
  · subst h; exact fun hc => hx2 hc.symm

theorem good_not_alpha (c : Char) (h : pyIsDigit c = true ∨ c = '-' ∨ c = '.') :
    pyIsAlpha c = false := by
  rcases h with h | h | h
  · exact digit_not_alpha c h
  · subst h; decide
  · subst h; decide

theorem good_toLower (c : Char) (h : pyIsDigit c = true ∨ c = '-' ∨ c = '.') :
    Char.toLower c = c := by
  have hlt : c.toNat < 65 := by
    rcases h with h | h | h
    · simp only [pyIsDigit, Bool.and_eq_true, decide_eq_true_eq] at h
      omega
    · subst h; decide
    · subst h; decide
  unfold Char.toLower
  rw [if_neg]
  omega

theorem good_toLower_ne_s (c : Char) (h : pyIsDigit c = true ∨ c = '-' ∨ c = '.') :
    Char.toLower c ≠ 's' := by
  rw [good_toLower c h]
  have hlt : c.toNat < 65 := by
    rcases h with h | h | h
    · simp only [pyIsDigit, Bool.and_eq_true, decide_eq_true_eq] at h
      omega
    · subst h; decide
    · subst h; decide
  intro hc
  subst hc
  exact absurd hlt (by decide)

theorem digitsOf_all_digit (fuel n : Nat) : ∀ c ∈ digitsOf fuel n, pyIsDigit c = true := by
  induction fuel generalizing n with
  | zero =>
    intro c hc
    simp only [digitsOf, List.mem_singleton] at hc
    subst hc
    exact pyIsDigit_digitChar _ (Nat.mod_lt _ (by omega))
  | succ f ih =>
    intro c hc
    simp only [digitsOf] at hc
    by_cases h : n < 10
    · rw [if_pos h] at hc
      simp only [List.mem_singleton] at hc
      subst hc
      exact pyIsDigit_digitChar _ h
    · rw [if_neg h] at hc
      rcases List.mem_append.mp hc with h1 | h1
      · exact ih _ c h1
      · simp only [List.mem_singleton] at h1
        subst h1
        exact pyIsDigit_digitChar _ (Nat.mod_lt _ (by omega))

theorem digitsOf_ne_nil (fuel n : Nat) : digitsOf fuel n ≠ [] := by
  cases fuel with
  | zero => simp [digitsOf]
  | succ f =>
    simp only [digitsOf]
    by_cases h : n < 10
    · rw [if_pos h]; simp
    · rw [if_neg h]; simp

theorem natStr_all_digit (n : Nat) : ∀ c ∈ natStr n, pyIsDigit c = true :=
  digitsOf_all_digit n n

theorem natStr_ne_nil (n : Nat) : natStr n ≠ [] := digitsOf_ne_nil n n

theorem digitsToNat_append_one (l : List Char) (c : Char) :
    digitsToNat (l ++ [c]) = 10 * digitsToNat l + digitVal c := by
  unfold digitsToNat
  rw [List.foldl_append]
  rfl

theorem digitsToNat_digitsOf (fuel n : Nat) (h : n ≤ fuel) :
    digitsToNat (digitsOf fuel n) = n := by
  induction fuel generalizing n with
  | zero =>
    have hn : n = 0 := Nat.le_zero.mp h
    subst hn
    decide
  | succ f ih =>
    simp only [digitsOf]
    by_cases h10 : n < 10
    · rw [if_pos h10]
      show 10 * 0 + digitVal (digitChar n) = n
      rw [digitVal_digitChar n h10]
      omega
    · rw [if_neg h10]
      rw [digitsToNat_append_one]
      rw [ih (n / 10) (by omega)]
      rw [digitVal_digitChar _ (Nat.mod_lt _ (by omega))]
      omega

theorem digitsToNat_natStr (n : Nat) : digitsToNat (natStr n) = n :=
  digitsToNat_digitsOf n n (Nat.le_refl n)

theorem digitsOf_length_le (fuel n k : Nat) (hk : 1 ≤ k) (hn : n < 10 ^ k) :
    (digitsOf fuel n).length ≤ k := by
  induction fuel generalizing n k with
  | zero => simpa [digitsOf] using hk
  | succ f ih =>
    simp only [digitsOf]
    by_cases h10 : n < 10
    · rw [if_pos h10]
      simpa using hk
    · rw [if_neg h10]
      have hk2 : 2 ≤ k := by
        by_contra hlt
        have hk1 : k = 1 := by omega
        subst hk1
        simp at hn
        omega
      have hsplit : (10 : Nat) ^ k = 10 * 10 ^ (k - 1) := by
        conv_lhs => rw [show k = (k - 1) + 1 from by omega]
        rw [pow_succ]
        ring
      have hdiv : n / 10 < 10 ^ (k - 1) := by
        rw [hsplit] at hn
        omega
      have := ih (n / 10) (k - 1) (by omega) hdiv
      rw [List.length_append]
      simp only [List.length_singleton]
      omega

theorem natStr_length_le (n k : Nat) (hk : 1 ≤ k) (hn : n < 10 ^ k) :
    (natStr n).length ≤ k :=
  digitsOf_length_le n n k hk hn

theorem digitsToNat_replicate_zero_append (m : Nat) (l : List Char) :
    digitsToNat (List.replicate m '0' ++ l) = digitsToNat l := by
  induction m with
  | zero => rfl
  | succ j ih =>
    show digitsToNat ('0' :: (List.replicate j '0' ++ l)) = digitsToNat l
    unfold digitsToNat at *
    simp only [List.foldl_cons]
    have h0 : (10 * 0 + digitVal '0') = 0 := by decide
    show (List.replicate j '0' ++ l).foldl (fun a c => 10 * a + digitVal c)
      (10 * 0 + digitVal '0') = _
    rw [h0]
    exact ih

theorem digitsToNat_padZeros (k : Nat) (l : List Char) :
    digitsToNat (padZeros k l) = digitsToNat l :=
  digitsToNat_replicate_zero_append _ l

theorem padZeros_length (k : Nat) (l : List Char) (h : l.length ≤ k) :
    (padZeros k l).length = k := by
  unfold padZeros
  rw [List.length_append, List.length_replicate]
  omega

theorem padZeros_all_digit (k : Nat) (l : List Char) (h : ∀ c ∈ l, pyIsDigit c = true) :
    ∀ c ∈ padZeros k l, pyIsDigit c = true := by
  intro c hc
  rcases List.mem_append.mp hc with h1 | h1
  · have := List.eq_of_mem_replicate h1
    subst this
    decide
  · exact h c h1

theorem intStr_good (i : ℤ) : ∀ c ∈ intStr i, pyIsDigit c = true ∨ c = '-' ∨ c = '.' := by
  intro c hc
  unfold intStr at hc
  by_cases h : i < 0
  · rw [if_pos h] at hc
    rcases List.mem_cons.mp hc with h1 | h1
    · right; left; exact h1
    · left; exact natStr_all_digit _ c h1
  · rw [if_neg h] at hc
    left
    exact natStr_all_digit _ c hc

theorem floatStrAux_good (q : ℚ) (k : Nat) :
    ∀ c ∈ floatStrAux q k, pyIsDigit c = true ∨ c = '-' ∨ c = '.' := by
  intro c hc
  unfold floatStrAux at hc
  by_cases hq : q < 0
  · rw [if_pos hq] at hc
    simp only [List.cons_append, List.nil_append, List.mem_append, List.mem_cons] at hc
    rcases hc with h1 | h1 | h1 | h1
    · right; left; exact h1
    · left; exact natStr_all_digit _ c h1
    · right; right; exact h1
    · left; exact padZeros_all_digit _ _ (natStr_all_digit _) c h1
  · rw [if_neg hq] at hc
    simp only [List.nil_append, List.mem_append, List.mem_cons] at hc
    rcases hc with h1 | h1 | h1
    · left; exact natStr_all_digit _ c h1
    · right; right; exact h1
    · left; exact padZeros_all_digit _ _ (natStr_all_digit _) c h1

theorem good_strip (l : List Char) (h : ∀ c ∈ l, pyIsDigit c = true ∨ c = '-' ∨ c = '.') :
    pyStripList l = l := by
  apply stripped_of_ends
  · intro c hc
    exact good_not_space c (h c (List.mem_of_mem_head? hc))
  · intro c hc
    have hm : c ∈ l := by
      have := List.mem_reverse.mp (List.mem_of_mem_head? (by rwa [List.head?_reverse]))
      exact this
    exact good_not_space c (h c hm)

theorem noPairB_of_all_right (p : Char → Char → Bool) (l : List Char)
    (h : ∀ b ∈ l, ∀ a, p a b = false) : noPairB p l = true := by
  induction l with
  | nil => rfl
  | cons x t ih =>
    cases t with
    | nil => rfl
    | cons y r =>
      rw [noPairB_cons_eq]
      rw [ih (fun b hb a => h b (List.mem_cons_of_mem x hb) a)]
      rw [Bool.and_true]
      simp only [List.head?_cons]
      rw [h y (by simp) x]
      rfl

theorem noPairB_of_all_left (p : Char → Char → Bool) (l : List Char)
    (h : ∀ a ∈ l, ∀ b, p a b = false) : noPairB p l = true := by
  induction l with
  | nil => rfl
  | cons x t ih =>
    cases t with
    | nil => rfl
    | cons y r =>
      rw [noPairB_cons_eq]
      rw [ih (fun a ha b => h a (List.mem_cons_of_mem x ha) b)]
      rw [Bool.and_true]
      simp only [List.head?_cons]
      rw [h x (by simp) y]
      rfl

theorem good_preprocess_core (l : List Char)
    (h : ∀ c ∈ l, pyIsDigit c = true ∨ c = '-' ∨ c = '.') :
    sub2 dpPair (sub2 pdPair (sub2 ldPair (sub2 dlPair
      (charReplace '÷' ['/'] (charReplace '×' ['*'] (charReplace '^' ['*', '*']
        (pyStripList l))))))) = l := by
  rw [good_strip l h]
  rw [charReplace_eq_self _ _ _ (fun c hc => good_ne c '^' (h c hc) (by decide) (by decide) (by decide))]
  rw [charReplace_eq_self _ _ _ (fun c hc => good_ne c '×' (h c hc) (by decide) (by decide) (by decide))]
  rw [charReplace_eq_self _ _ _ (fun c hc => good_ne c '÷' (h c hc) (by decide) (by decide) (by decide))]
  rw [sub2_eq_self dlPair _ (noPairB_of_all_right dlPair _ (fun b hb a => by
    unfold dlPair
    rw [good_not_alpha b (h b hb)]
    simp))]
  rw [sub2_eq_self ldPair _ (noPairB_of_all_left ldPair _ (fun a ha b => by
    unfold ldPair
    rw [good_not_alpha a (h a ha)]
    simp))]
  rw [sub2_eq_self pdPair _ (noPairB_of_all_left pdPair _ (fun a ha b => by
    unfold pdPair
    have : a ≠ ')' := good_ne a ')' (h a ha) (by decide) (by decide) (by decide)
    simp [this]))]
  rw [sub2_eq_self dpPair _ (noPairB_of_all_right dpPair _ (fun b hb a => by
    unfold dpPair
    have : b ≠ '(' := good_ne b '(' (h b hb) (by decide) (by decide) (by decide)
    simp [this]))]

theorem good_preprocess (l : List Char)
    (h : ∀ c ∈ l, pyIsDigit c = true ∨ c = '-' ∨ c = '.') :
    preprocess_expression ⟨l⟩ = ⟨l⟩ := by
  unfold preprocess_expression
  exact congrArg String.mk (good_preprocess_core l h)

theorem containsSub_false_of_head_not_mem (l : List Char) (a : Char) (p : List Char)
    (h : a ∉ l) : containsSub l (a :: p) = false := by
  induction l with
  | nil => rfl
  | cons x t ih =>
    unfold containsSub
    have hax : a ≠ x := fun hc => h (hc ▸ List.mem_cons_self x t)
    rw [ih (fun hc => h (List.mem_cons_of_mem x hc))]
    simp only [List.isPrefixOf, Bool.or_false]
    simp [hax]

theorem good_not_mem (l : List Char) (x : Char)
    (h : ∀ c ∈ l, pyIsDigit c = true ∨ c = '-' ∨ c = '.')
    (hx : pyIsDigit x = false) (hx1 : x ≠ '-') (hx2 : x ≠ '.') : x ∉ l := by
  intro hm
  exact good_ne x x (h x hm) hx hx1 hx2 rfl

theorem good_not_mem_lower_s (l : List Char)
    (h : ∀ c ∈ l, pyIsDigit c = true ∨ c = '-' ∨ c = '.') : 's' ∉ pyLower l := by
  intro hm
  rcases List.mem_map.mp hm with ⟨c, hc, he⟩
  exact good_toLower_ne_s c (h c hc) he

theorem good_is_equation_check (l : List Char)
    (h : ∀ c ∈ l, pyIsDigit c = true ∨ c = '-' ∨ c = '.') :
    is_equation_check l = false := by
  have hcolon : containsSub l [':'] = false :=
    containsSub_false_of_head_not_mem l ':' []
      (good_not_mem l ':' h (by decide) (by decide) (by decide))
  have heq : containsSub l ['='] = false :=
    containsSub_false_of_head_not_mem l '=' []
      (good_not_mem l '=' h (by decide) (by decide) (by decide))
  have hsolve : containsSub (pyLower l) ['s', 'o', 'l', 'v', 'e'] = false :=
    containsSub_false_of_head_not_mem _ 's' _ (good_not_mem_lower_s l h)
  have hsolvep : containsSub (pyLower l) ['s', 'o', 'l', 'v', 'e', '('] = false :=
    containsSub_false_of_head_not_mem _ 's' _ (good_not_mem_lower_s l h)
  unfold is_equation_check
  have hsys : system_shape l = false := by
    unfold system_shape
    rw [hcolon]
    simp
  rw [hsys, heq, hsolve, hsolvep]
  rfl

theorem takeWhile_append_stop (p : Char → Bool) (l1 l2 : List Char) (c : Char)
    (h1 : ∀ x ∈ l1, p x = true) (hc : p c = false) :
    (l1 ++ c :: l2).takeWhile p = l1 := by
  induction l1 with
  | nil => simp [List.takeWhile_cons, hc]
  | cons x t ih =>
    rw [List.cons_append, List.takeWhile_cons, h1 x (by simp)]
    rw [ih (fun x hx => h1 x (List.mem_cons_of_mem _ hx))]
    simp

theorem dropWhile_append_stop (p : Char → Bool) (l1 l2 : List Char) (c : Char)
    (h1 : ∀ x ∈ l1, p x = true) (hc : p c = false) :
    (l1 ++ c :: l2).dropWhile p = c :: l2 := by
  induction l1 with
  | nil => simp [List.dropWhile_cons, hc]
  | cons x t ih =>
    rw [List.cons_append, List.dropWhile_cons, h1 x (by simp)]
    simp only [if_pos trivial]
    exact ih (fun x hx => h1 x (List.mem_cons_of_mem _ hx))

theorem tokenize_nil_ok (fuel : Nat) (h : fuel ≠ 0) : tokenize fuel [] = .ok [] := by
  cases fuel with
  | zero => exact absurd rfl h
  | succ f => rfl

theorem tokenize_digits (l : List Char) (hne : l ≠ [])
    (hall : ∀ x ∈ l, pyIsDigit x = true) :
    tokenize (l.length + 1) l = .ok [.numT (.intV (digitsToNat l))] := by
  cases l with
  | nil => exact absurd rfl hne
  | cons c rest =>
    have hc : pyIsDigit c = true := hall c (by simp)
    have hns : pyIsSpace c = false := digit_not_space c hc
    have htw : (c :: rest).takeWhile pyIsDigit = c :: rest :=
      List.takeWhile_eq_self_iff.mpr hall
    have hdw : (c :: rest).dropWhile pyIsDigit = [] :=
      List.dropWhile_eq_nil_iff.mpr hall
    show tokenize (rest.length + 1 + 1) (c :: rest) = _
    rw [tokenize]
    rw [hns, hc]
    simp only [Bool.false_eq_true, if_false, if_true]
    rw [htw, hdw]
    rw [tokenize_nil_ok (rest.length + 1) (by omega)]
    rfl

theorem tokenize_float_text (ds1 ds2 : List Char) (h1 : ds1 ≠ [])
    (ha1 : ∀ x ∈ ds1, pyIsDigit x = true) (ha2 : ∀ x ∈ ds2, pyIsDigit x = true) :
    tokenize ((ds1 ++ '.' :: ds2).length + 1) (ds1 ++ '.' :: ds2)
      = .ok [.numT (.floatV ((digitsToNat ds1 : ℚ)
          + (digitsToNat ds2 : ℚ) / (10 : ℚ) ^ ds2.length))] := by
  cases ds1 with
  | nil => exact absurd rfl h1
  | cons c t =>
    have hc : pyIsDigit c = true := ha1 c (by simp)
    have hns : pyIsSpace c = false := digit_not_space c hc
    have hdot : pyIsDigit '.' = false := by decide
    have htw : ((c :: t) ++ '.' :: ds2).takeWhile pyIsDigit = c :: t :=
      takeWhile_append_stop _ _ _ _ ha1 hdot
    have hdw : ((c :: t) ++ '.' :: ds2).dropWhile pyIsDigit = '.' :: ds2 :=
      dropWhile_append_stop _ _ _ _ ha1 hdot
    have htw2 : ds2.takeWhile pyIsDigit = ds2 := List.takeWhile_eq_self_iff.mpr ha2
    have hdw2 : ds2.dropWhile pyIsDigit = [] := List.dropWhile_eq_nil_iff.mpr ha2
    show tokenize (((c :: t) ++ '.' :: ds2).length + 1) ((c :: t) ++ '.' :: ds2) = _
    rw [show ((c :: t) ++ '.' :: ds2).length + 1 = (t ++ '.' :: ds2).length + 1 + 1 by
      simp [List.length_append]]
    rw [show ((c :: t) ++ '.' :: ds2) = c :: (t ++ '.' :: ds2) from rfl]
    rw [tokenize]
    rw [hns, hc]
    simp only [Bool.false_eq_true, if_false, if_true]
    rw [show c :: (t ++ '.' :: ds2) = (c :: t) ++ '.' :: ds2 from rfl]
    rw [htw, hdw]
    simp only [htw2, hdw2]
    rw [tokenize_nil_ok ((t ++ '.' :: ds2).length + 1) (by omega)]
    rfl

theorem tokenize_minus (rest : List Char) :
    tokenize (('-' :: rest).length + 1) ('-' :: rest)
      = (tokenize (rest.length + 1) rest).map (fun ts => .opT '-' :: ts) := by
  rfl

theorem parseExpr_single_num (v : PyVal) :
    parseExprToks [.numT v] = .ok (.numE v) := rfl

theorem parseExpr_neg_num (v : PyVal) :
    parseExprToks [.opT '-', .numT v] = .ok (.negE (.numE v)) := rfl

theorem pyEval_digits (l : List Char) (hne : l ≠ [])
    (hall : ∀ x ∈ l, pyIsDigit x = true) :
    pyEval l = .ok (.intV (digitsToNat l)) := by
  unfold pyEval
  rw [tokenize_digits l hne hall]
  rfl

theorem pyEval_intStr (i : ℤ) : pyEval (intStr i) = .ok (.intV i) := by
  unfold intStr
  by_cases h : i < 0
  · rw [if_pos h]
    unfold pyEval
    rw [tokenize_minus]
    rw [tokenize_digits _ (natStr_ne_nil _) (natStr_all_digit _)]
    rw [digitsToNat_natStr]
    show (Except.ok (PyVal.intV (-(i.natAbs : ℤ))) : Except PyErr PyVal)
        = Except.ok (PyVal.intV i)
    have h2 : ((i.natAbs : ℤ)) = -i := by omega
    rw [h2, neg_neg]
  · rw [if_neg h]
    rw [pyEval_digits _ (natStr_ne_nil _) (natStr_all_digit _)]
    rw [digitsToNat_natStr]
    rw [Int.natAbs_of_nonneg (by omega)]

theorem decExp_spec (q : ℚ) (hden : q.den ≠ 1) (h10 : (q * 10 ^ 10).den = 1) :
    ∃ k, decExp q = some (k + 1) ∧ (q * (10 : ℚ) ^ (k + 1)).den = 1 := by
  have hex : (decExp q).isSome := by
    unfold decExp
    apply List.find?_isSome.mpr
    refine ⟨10, by simp [List.mem_range], by simp [h10]⟩
  obtain ⟨j, hj⟩ := Option.isSome_iff_exists.mp hex
  have hj' : (List.range 40).find? (fun k => (q * (10 : ℚ) ^ k).den = 1) = some j := hj
  have hpj : (q * (10 : ℚ) ^ j).den = 1 := by
    have := List.find?_some hj'
    simpa using this
  cases j with
  | zero =>
    exfalso
    apply hden
    rw [pow_zero, mul_one] at hpj
    exact hpj
  | succ k => exact ⟨k, hj, hpj⟩

theorem num_cast_of_den_one (x : ℚ) (h : x.den = 1) : ((x.num : ℚ)) = x := by
  have hh := Rat.num_div_den x
  rw [h] at hh
  simpa using hh

theorem pyEval_floatStrAux (q : ℚ) (e : Nat) (he : 1 ≤ e)
    (hden : (q * (10 : ℚ) ^ e).den = 1) :
    pyEval (floatStrAux q e) = .ok (.floatV q) := by
  have hqe : (((q * (10 : ℚ) ^ e).num : ℚ)) = q * (10 : ℚ) ^ e :=
    num_cast_of_den_one _ hden
  have h10e : ((10 : ℚ)) ^ e ≠ 0 := by positivity
  have hmodlt : (q * (10 : ℚ) ^ e).num.natAbs % 10 ^ e < 10 ^ e :=
    Nat.mod_lt _ (by positivity)
  by_cases hq : q < 0
  · have hnum : (q * (10 : ℚ) ^ e).num < 0 := by
      apply Rat.num_neg.mpr
      have : (0 : ℚ) < (10 : ℚ) ^ e := by positivity
      exact mul_neg_of_neg_of_pos hq this
    set m := (q * (10 : ℚ) ^ e).num.natAbs with hm
    have hmQ : ((m : ℚ)) = -(q * (10 : ℚ) ^ e) := by
      have h1 : ((m : ℤ)) = -(q * (10 : ℚ) ^ e).num := by omega
      calc ((m : ℚ)) = (((m : ℤ) : ℚ)) := by push_cast; ring
        _ = ((-(q * (10 : ℚ) ^ e).num : ℤ) : ℚ) := by rw [h1]
        _ = -(q * (10 : ℚ) ^ e) := by push_cast; rw [hqe]
    have hbody : floatStrAux q e
        = '-' :: (natStr (m / 10 ^ e) ++ '.' :: padZeros e (natStr (m % 10 ^ e))) := by
      unfold floatStrAux
      rw [if_pos hq]
      rfl
    rw [hbody]
    unfold pyEval
    rw [tokenize_minus]
    rw [tokenize_float_text _ _ (natStr_ne_nil _) (natStr_all_digit _)
      (padZeros_all_digit _ _ (natStr_all_digit _))]
    rw [digitsToNat_natStr, digitsToNat_padZeros, digitsToNat_natStr]
    rw [padZeros_length _ _ (natStr_length_le _ _ he hmodlt)]
    show (Except.ok (PyVal.floatV
          (-(((m / 10 ^ e : ℕ) : ℚ) + ((m % 10 ^ e : ℕ) : ℚ) / (10 : ℚ) ^ e)))
        : Except PyErr PyVal) = Except.ok (PyVal.floatV q)
    have key : ((m : ℚ)) = (10 : ℚ) ^ e * ((m / 10 ^ e : ℕ) : ℚ) + ((m % 10 ^ e : ℕ) : ℚ) := by
      exact_mod_cast (Nat.div_add_mod m (10 ^ e)).symm
    have hq' : q = -((m : ℚ)) / (10 : ℚ) ^ e := by
      rw [hmQ]
      field_simp
    rw [hq', key]
    congr 1
    congr 1
    field_simp
    ring
  · have hnum : 0 ≤ (q * (10 : ℚ) ^ e).num := by
      apply Rat.num_nonneg.mpr
      have : (0 : ℚ) ≤ (10 : ℚ) ^ e := by positivity
      exact mul_nonneg (le_of_not_lt hq) this
    set m := (q * (10 : ℚ) ^ e).num.natAbs with hm
    have hmQ : ((m : ℚ)) = q * (10 : ℚ) ^ e := by
      have h1 : ((m : ℤ)) = (q * (10 : ℚ) ^ e).num := by omega
      calc ((m : ℚ)) = (((m : ℤ) : ℚ)) := by push_cast; ring
        _ = (((q * (10 : ℚ) ^ e).num : ℤ) : ℚ) := by rw [h1]
        _ = q * (10 : ℚ) ^ e := hqe
    have hbody : floatStrAux q e
        = natStr (m / 10 ^ e) ++ '.' :: padZeros e (natStr (m % 10 ^ e)) := by
      unfold floatStrAux
      rw [if_neg hq]
      rfl
    rw [hbody]
    unfold pyEval
    rw [tokenize_float_text _ _ (natStr_ne_nil _) (natStr_all_digit _)
      (padZeros_all_digit _ _ (natStr_all_digit _))]
    rw [digitsToNat_natStr, digitsToNat_padZeros, digitsToNat_natStr]
    rw [padZeros_length _ _ (natStr_length_le _ _ he hmodlt)]
    show (Except.ok (PyVal.floatV
          (((m / 10 ^ e : ℕ) : ℚ) + ((m % 10 ^ e : ℕ) : ℚ) / (10 : ℚ) ^ e))
        : Except PyErr PyVal) = Except.ok (PyVal.floatV q)
    have key : ((m : ℚ)) = (10 : ℚ) ^ e * ((m / 10 ^ e : ℕ) : ℚ) + ((m % 10 ^ e : ℕ) : ℚ) := by
      exact_mod_cast (Nat.div_add_mod m (10 ^ e)).symm
    have hq' : q = ((m : ℚ)) / (10 : ℚ) ^ e := by
      rw [hmQ]
      field_simp
    rw [hq', key]
    congr 1
    congr 1
    field_simp
    ring

theorem pyEval_pyFloatStr (q : ℚ) (hden : q.den ≠ 1) (h10 : (q * 10 ^ 10).den = 1) :
    pyEval (pyFloatStr q) = .ok (.floatV q) := by
  obtain ⟨k, hk, hkden⟩ := decExp_spec q hden h10
  unfold pyFloatStr
  rw [hk]
  exact pyEval_floatStrAux q (k + 1) (by omega) hkden

theorem pyFloatStr_good (q : ℚ) (hden : q.den ≠ 1) (h10 : (q * 10 ^ 10).den = 1) :
    ∀ c ∈ pyFloatStr q, pyIsDigit c = true ∨ c = '-' ∨ c = '.' := by
  obtain ⟨k, hk, _⟩ := decExp_spec q hden h10
  unfold pyFloatStr
  rw [hk]
  exact floatStrAux_good q (k + 1)

theorem roundHalfEven_intCast (n : ℤ) : roundHalfEven (n : ℚ) = n := by
  unfold roundHalfEven
  rw [Int.floor_intCast]
  norm_num

theorem roundQ10_fix (q : ℚ) (h10 : (q * 10 ^ 10).den = 1) : roundQ10 q = q := by
  have hqe := num_cast_of_den_one _ h10
  unfold roundQ10
  rw [← hqe, roundHalfEven_intCast, hqe]
  field_simp

theorem format_float_keep (q : ℚ) (hden : q.den ≠ 1) (h10 : (q * 10 ^ 10).den = 1) :
    format_result_val (.floatV q) = .floatV q := by
  show formatFloatVal q = _
  unfold formatFloatVal
  rw [if_neg hden, roundQ10_fix q h10]

theorem calculate_intStr (i : ℤ) : calculate ⟨intStr i⟩ = .intV i := by
  unfold calculate
  rw [good_preprocess _ (intStr_good i)]
  rw [show (⟨intStr i⟩ : String).data = intStr i from rfl]
  rw [pyEval_intStr]
  rfl

theorem calculate_floatStr (q : ℚ) (hden : q.den ≠ 1) (h10 : (q * 10 ^ 10).den = 1) :
    calculate ⟨pyFloatStr q⟩ = .floatV q := by
  unfold calculate
  rw [good_preprocess _ (pyFloatStr_good q hden h10)]
  rw [show (⟨pyFloatStr q⟩ : String).data = pyFloatStr q from rfl]
  rw [pyEval_pyFloatStr q hden h10]
  exact format_float_keep q hden h10

theorem store_result_lookup_self (rm : ResultStore) (n : Nat) (e : String)
    (r : PyVal) (b : Bool) :
    (store_result rm n e r b).lookup n
      = some (mk_result_data n e r (determine_result_type r b) b) := by
  unfold store_result
  by_cases h : rm.any (fun p => p.1 = n)
  · rw [if_pos h]
    have h' : ∃ p ∈ rm, p.1 = n := by
      obtain ⟨p, hp, hc⟩ := List.any_eq_true.mp h
      exact ⟨p, hp, by simpa using hc⟩
    clear h
    obtain ⟨p0, hp0, hc0⟩ := h'
    revert hp0
    induction rm with
    | nil => intro hp0; simp at hp0
    | cons hd tl ih =>
      intro hp0
      rw [List.map_cons]
      by_cases hh : hd.1 = n
      · rw [if_pos hh]
        simp [List.lookup]
      · rw [if_neg hh]
        rw [List.lookup, show (n == hd.1) = false from by simp [Ne.symm hh]]
        rcases List.mem_cons.mp hp0 with he | he
        · exact absurd (he ▸ hc0) hh
        · exact ih he
  · rw [if_neg h]
    have h' : ∀ p ∈ rm, p.1 ≠ n := by
      intro p hp hc
      exact h (List.any_eq_true.mpr ⟨p, hp, by simp [hc]⟩)
    clear h
    revert h'
    induction rm with
    | nil =>
      intro h'
      simp [List.lookup]
    | cons hd tl ih =>
      intro h'
      rw [List.cons_append, List.lookup,
        show (n == hd.1) = false from by simp [Ne.symm (h' hd (by simp))]]
      exact ih (fun p hp => h' p (List.mem_cons_of_mem _ hp))

theorem store_result_lookup_other (rm : ResultStore) (n m : Nat) (e : String)
    (r : PyVal) (b : Bool) (hm : m ≠ n) :
    (store_result rm n e r b).lookup m = rm.lookup m := by
  unfold store_result
  by_cases h : rm.any (fun p => p.1 = n)
  · rw [if_pos h]
    clear h
    induction rm with
    | nil => rfl
    | cons hd tl ih =>
      rw [List.map_cons]
      by_cases hh : hd.1 = n
      · rw [if_pos hh]
        rw [List.lookup, List.lookup]
        rw [show (m == n) = false from by simp [hm], show (m == hd.1) = false from by
          simp [hh ▸ hm]]
        exact ih
      · rw [if_neg hh]
        rw [List.lookup, List.lookup]
        cases hmh : (m == hd.1) with
        | true => rfl
        | false => exact ih
  · rw [if_neg h]
    clear h
    induction rm with
    | nil => simp [List.lookup, show (m == n) = false from by simp [hm]]
    | cons hd tl ih =>
      rw [List.cons_append, List.lookup, List.lookup]
      cases hmh : (m == hd.1) with
      | true => rfl
      | false => exact ih

theorem get_result_none_none (results : ResultStore) (n : Nat) (rd : ResultData)
    (h1 : results.lookup n = some rd) (h2 : rd.result_type ≠ "error")
    (h3 : rd.is_equation = false) :
    get_result results n none none = some rd.result := by
  unfold get_result
  rw [h1]
  show (if rd.result_type = "error" then none else getResultTraditional rd none)
      = some rd.result
  rw [if_neg h2]
  show (if (rd.is_equation && !rd.solutions.isEmpty) = true
      then (rd.solutions.head?).map PyVal.floatV else some rd.result) = some rd.result
  rw [h3]
  simp

theorem resolveRefs_at1 (results : ResultStore) (rd : ResultData) (t : List Char)
    (h1 : results.lookup 1 = some rd) (h2 : rd.result_type ≠ "error")
    (h3 : rd.is_equation = false)
    (ht : replaceReferenceText 1 (some rd.result) = .ok t) :
    resolve_line_references results ['@', '1'] = .ok t := by
  have hg := get_result_none_none results 1 rd h1 h2 h3
  show (do
      let repl ← replaceReferenceText 1 (get_result results 1 none none)
      let t2 ← resolveRefsAux results 2 []
      pure (repl ++ t2) : Except String (List Char)) = .ok t
  rw [hg, ht]
  show Except.ok (t ++ []) = Except.ok t
  rw [List.append_nil]

theorem parse_expression_at1 (results : ResultStore) (t : List Char)
    (hres : resolve_line_references results ['@', '1'] = .ok t)
    (hgood : ∀ c ∈ t, pyIsDigit c = true ∨ c = '-' ∨ c = '.') :
    parse_expression "@1" results = (⟨t⟩, false, "@1") := by
  show (match resolve_line_references results ['@', '1'] with
      | .ok r => ((⟨pyStripList r⟩ : String), false, ("@1" : String))
      | .error e => ((("错误: 行引用解析失败 - " ++ e : String)), false, ("@1" : String)))
    = ((⟨t⟩ : String), false, ("@1" : String))
  rw [hres]
  show ((⟨pyStripList t⟩ : String), false, ("@1" : String)) = _
  rw [good_strip t hgood]

/-- C3 counterexample: the claimed round-trip guarantee fails for the
valid numeric expression `2j`.  Line 1 (`2j`) evaluates and stores the
complex result formatted as the string `"2j"`; the reference `@1` on line
2 then aborts with a reference error (string-valued results raise
`ValueError` in `replace_reference`), the error text becomes the
expression, and line 2 stores an error entry instead of the same value —
so evaluating a reference to a stored result does not always reproduce
that result. -/
theorem reference_roundtrip_counterexample :
    (((calculate_line trivialBackend [] 1 "2j").lookup 1).map (fun rd => rd.result)
        = some (.strV "2j")) ∧
    (((calculate_line trivialBackend
          (calculate_line trivialBackend [] 1 "2j") 2 "@1").lookup 2).map
            (fun rd => (rd.result, rd.result_type))
        = some (.strV "错误: 语法错误 - invalid character 错", "error")) ∧
    (((calculate_line trivialBackend
          (calculate_line trivialBackend [] 1 "2j") 2 "@1").lookup 2).map
            (fun rd => rd.result)
        ≠ some (.strV "2j")) := by
  refine ⟨by decide, by decide, by decide⟩

/-- C3 (amended): the round-trip holds on the numeric store contract:
if line 1 holds a non-error, non-equation entry whose stored value is an
int, or a float that is not integral and has at most ten decimal places
(every value `_format_result` keeps as a float after its `round(..., 10)`
unless rounding collapsed it to an integral float), then evaluating `@1`
on line 2 stores exactly that value again: `str()` of the value is
substituted into the expression, re-evaluated and re-formatted to an
equal result. -/
theorem reference_roundtrip_amended (backend : SolverBackend) (results : ResultStore)
    (rd : ResultData) (v : PyVal)
    (h1 : results.lookup 1 = some rd)
    (h2 : rd.result_type ≠ "error")
    (h3 : rd.is_equation = false)
    (h4 : rd.result = v)
    (h5 : (∃ n : ℤ, v = .intV n) ∨
      (∃ q : ℚ, v = .floatV q ∧ q.den ≠ 1 ∧ (q * 10 ^ 10).den = 1)) :
    ∃ rd2, (calculate_line backend results 2 "@1").lookup 2 = some rd2 ∧
      rd2.result = v := by
  obtain ⟨t, hgood, ht, hcalc⟩ :
      ∃ t, (∀ c ∈ t, pyIsDigit c = true ∨ c = '-' ∨ c = '.') ∧
        replaceReferenceText 1 (some rd.result) = .ok t ∧ calculate ⟨t⟩ = v := by
    rcases h5 with ⟨n, hv⟩ | ⟨q, hv, hden, h10⟩
    · refine ⟨intStr n, intStr_good n, ?_, ?_⟩
      · rw [h4, hv]; rfl
      · rw [hv]; exact calculate_intStr n
    · refine ⟨pyFloatStr q, pyFloatStr_good q hden h10, ?_, ?_⟩
      · rw [h4, hv]; rfl
      · rw [hv]; exact calculate_floatStr q hden h10
  have hres := resolveRefs_at1 results rd t h1 h2 h3 ht
  have hp := parse_expression_at1 results t hres hgood
  have hiseq : is_equation_check (String.data ⟨t⟩) = false := good_is_equation_check t hgood
  have hline : calculate_line backend results 2 "@1"
      = store_result results 2 "@1" (calculate ⟨t⟩) false := by
    simp only [calculate_line, hp, hiseq]
    rfl
  rw [hline, hcalc]
  exact ⟨mk_result_data 2 "@1" v (determine_result_type v false) false,
    store_result_lookup_self results 2 "@1" v false, rfl⟩

theorem reference_roundtrip_amended_witness :
    ∃ rd2, (calculate_line trivialBackend
        [(1, { line_number := 1, expression := "2.5", result := .floatV (5 / 2),
               result_type := "single", is_equation := false,
               solutions := [], variable_solutions := [] })] 2 "@1").lookup 2
      = some rd2 ∧ rd2.result = .floatV (5 / 2) :=
  reference_roundtrip_amended trivialBackend _ _ _ rfl (by decide) rfl rfl
    (Or.inr ⟨5 / 2, rfl, by decide, by decide⟩)

theorem head?_some_cons (l : List Char) (c : Char) (h : l.head? = some c) :
    ∃ t, l = c :: t := by
  cases l with
  | nil => simp at h
  | cons x t =>
    simp only [List.head?_cons, Option.some.injEq] at h
    exact ⟨t, by rw [h]⟩

theorem pyStripList_cons_nonspace (c : Char) (l : List Char) (hc : pyIsSpace c = false) :
    ∃ t, pyStripList (c :: l) = c :: t := by
  have hd1 : (c :: l).dropWhile pyIsSpace = c :: l := by
    simp [List.dropWhile_cons, hc]
  unfold pyStripList
  rw [hd1]
  have hne : (c :: l).reverse.dropWhile pyIsSpace ≠ [] := by
    intro h0
    have hall := List.dropWhile_eq_nil_iff.mp h0
    have hcs := hall c (by simp)
    rw [hc] at hcs
    exact Bool.noConfusion hcs
  have hsuf : (c :: l).reverse.dropWhile pyIsSpace <:+ (c :: l).reverse :=
    List.dropWhile_suffix _
  have hpre : ((c :: l).reverse.dropWhile pyIsSpace).reverse <+: (c :: l) := by
    have h2 := List.reverse_prefix.mpr hsuf
    rw [List.reverse_reverse] at h2
    exact h2
  obtain ⟨u, hu⟩ := hpre
  cases hrev : ((c :: l).reverse.dropWhile pyIsSpace).reverse with
  | nil =>
    exfalso
    exact hne (by simpa using hrev)
  | cons x xs =>
    rw [hrev] at hu
    have hx : x = c := by
      have := congrArg List.head? hu
      simpa using this
    exact ⟨xs, by rw [hx]⟩

theorem charReplace_cons_ne (c src : Char) (tgt l : List Char) (h : c ≠ src) :
    charReplace src tgt (c :: l) = c :: charReplace src tgt l := by
  show (if c = src then tgt else [c]) ++ charReplace src tgt l = _
  rw [if_neg h]
  rfl

theorem sub2la_head? (p : Char → Char → Bool) (bad : Char → Bool) :
    ∀ l : List Char, (sub2la p bad l).head? = l.head?
  | [] => rfl
  | [_] => rfl
  | c1 :: c2 :: rest => by
    by_cases hp : (p c1 c2
        && !(match rest.head? with | some d => bad d | none => false)) = true <;>
      simp [sub2la, hp]

theorem tokenize_cuo (rest : List Char) :
    tokenize (('错' :: rest).length + 1) ('错' :: rest)
      = .error (.syntaxErr ("invalid character " ++ ⟨['错']⟩)) := rfl

theorem pyEval_cuo (rest : List Char) :
    pyEval ('错' :: rest) = .error (.syntaxErr ("invalid character " ++ ⟨['错']⟩)) := by
  unfold pyEval
  rw [tokenize_cuo]
  rfl

theorem pyStartsWith_cuo (r : List Char) :
    pyStartsWith ('错' :: '误' :: r) "错误".data = true := by
  show (['错', '误'].isPrefixOf ('错' :: '误' :: r)) = true
  simp [List.isPrefixOf]

theorem preprocess_core_cuo (r : List Char) :
    ∃ t, sub2 dpPair (sub2 pdPair (sub2 ldPair (sub2 dlPair
      (charReplace '÷' ['/'] (charReplace '×' ['*'] (charReplace '^' ['*', '*']
        (pyStripList ('错' :: r)))))))) = '错' :: t := by
  obtain ⟨l1, h1⟩ := pyStripList_cons_nonspace '错' r (by decide)
  rw [h1]
  rw [charReplace_cons_ne _ _ _ _ (by decide)]
  rw [charReplace_cons_ne _ _ _ _ (by decide)]
  rw [charReplace_cons_ne _ _ _ _ (by decide)]
  apply head?_some_cons
  rw [sub2_head?, sub2_head?, sub2_head?, sub2_head?]
  rfl

theorem calculate_cuo (s : String) (r : List Char) (hd : s.data = '错' :: r) :
    ∃ msg : String, calculate s = .strV msg ∧
      pyStartsWith msg.data "错误".data = true := by
  obtain ⟨t, hc⟩ := preprocess_core_cuo r
  have hdata : (preprocess_expression s).data = '错' :: t := by
    show sub2 dpPair (sub2 pdPair (sub2 ldPair (sub2 dlPair
      (charReplace '÷' ['/'] (charReplace '×' ['*'] (charReplace '^' ['*', '*']
        (pyStripList s.data))))))) = '错' :: t
    rw [hd]
    exact hc
  unfold calculate
  rw [hdata, pyEval_cuo]
  refine ⟨errMessage (.syntaxErr ("invalid character " ++ ⟨['错']⟩)), rfl, ?_⟩
  show pyStartsWith ("错误: 语法错误 - " ++ ("invalid character " ++ ⟨['错']⟩)).data
    "错误".data = true
  rw [String.data_append]
  exact pyStartsWith_cuo _

theorem sympify_cuo (rest : List Char) :
    sympifyModel ('错' :: rest)
      = .error ("Sympify of expression failed: " ++ ⟨'错' :: rest⟩) := by
  unfold sympifyModel
  rw [tokenize_cuo]

theorem splitAll_cons_ne (c x : Char) (t : List Char) (hx : x ≠ c) :
    ∃ h t2, splitAll c (x :: t) = (x :: h) :: t2 := by
  cases hr : splitAll c t with
  | nil =>
    refine ⟨[], [], ?_⟩
    simp only [splitAll, hr, if_neg hx]
  | cons hh tt =>
    refine ⟨hh, tt, ?_⟩
    simp only [splitAll, hr, if_neg hx]

theorem parse_solve_manually_cuo (backend : SolverBackend) (q : List Char) :
    ∃ e0, parse_solve_manually backend ('错' :: q) = .error e0 := by
  obtain ⟨s', hs⟩ := pyStripList_cons_nonspace '错' q (by decide)
  unfold parse_solve_manually
  simp only [hs]
  rw [show (List.isPrefixOf ['s', 'o', 'l', 'v', 'e', '('] ('错' :: s')) = false from rfl]
  exact ⟨_, rfl⟩

theorem solve_with_sympy_cuo (backend : SolverBackend) (r : List Char) :
    ∃ e, solve_with_sympy backend ('错' :: r) = .error e := by
  unfold solve_with_sympy
  by_cases h1 : containsSub (pyLower ('错' :: r)) ['s', 'o', 'l', 'v', 'e', '('] = true
  · rw [if_pos h1]
    unfold handle_solve_function
    rw [charReplace_cons_ne _ _ _ _ (by decide)]
    obtain ⟨e0, hp⟩ := parse_solve_manually_cuo backend (charReplace '^' ['*', '*'] r)
    rw [hp]
    exact ⟨_, rfl⟩
  · rw [if_neg h1]
    by_cases h2 : containsSub ('错' :: r) ['='] = true
    · rw [if_pos h2]
      unfold handle_equation_with_equals
      obtain ⟨h, t2, hsp⟩ := splitAll_cons_ne '=' '错' r (by decide)
      rw [hsp]
      cases t2 with
      | nil => exact ⟨_, rfl⟩
      | cons right t3 =>
        cases t3 with
        | nil =>
          obtain ⟨s', hs⟩ := pyStripList_cons_nonspace '错' h (by decide)
          have hsym : sympifyModel (pyStripList ('错' :: h))
              = .error ("Sympify of expression failed: " ++ ⟨'错' :: s'⟩) := by
            rw [hs, sympify_cuo]
          refine ⟨"Sympify of expression failed: " ++ ⟨'错' :: s'⟩, ?_⟩
          simp only [hsym]
        | cons a b => exact ⟨_, rfl⟩
    · rw [if_neg h2]
      exact ⟨_, rfl⟩

theorem preprocess_equation_cuo (r : List Char) :
    ∃ t, preprocess_equation ('错' :: r) = '错' :: t := by
  obtain ⟨l1, h1⟩ := pyStripList_cons_nonspace '错' r (by decide)
  unfold preprocess_equation
  simp only [h1]
  by_cases hb : containsSub (pyLower ('错' :: l1)) ['s', 'o', 'l', 'v', 'e', '('] = true
  · rw [if_pos hb]
    exact ⟨_, charReplace_cons_ne _ _ _ _ (by decide)⟩
  · rw [if_neg hb]
    apply head?_some_cons
    rw [sub2la_head?, sub2_head?, sub2_head?, sub2_head?]
    rw [charReplace_cons_ne _ _ _ _ (by decide)]
    rw [charReplace_cons_ne _ _ _ _ (by decide)]
    rw [charReplace_cons_ne _ _ _ _ (by decide)]
    rfl

theorem splitFirst_cuo (r : List Char) :
    splitFirst ('错' :: '误' :: ':' :: r) ':' = (['错', '误'], some r) := rfl

theorem solve_equation_cuo (backend : SolverBackend) (err : String) :
    pyStartsWith (solve_equation backend ("错误: 行引用解析失败 - " ++ err)).data
      "错误".data = true := by
  have hl2 : ("错误: 行引用解析失败 - " ++ err).data
      = '错' :: '误' :: ':' :: (" 行引用解析失败 - ".data ++ err.data) := by
    rw [String.data_append]
    rfl
  obtain ⟨pr, hpr⟩ :=
    preprocess_equation_cuo ('误' :: ':' :: (" 行引用解析失败 - ".data ++ err.data))
  obtain ⟨e2, hsw⟩ := solve_with_sympy_cuo backend pr
  unfold solve_equation
  simp only [hl2]
  simp only [splitFirst_cuo]
  rw [show containsSub (pyStripList ['错', '误']) [','] = false from rfl]
  simp only [Bool.false_and, Bool.false_eq_true, if_false, ite_self]
  rw [hpr, hsw]
  show pyStartsWith ("错误: 方程求解失败 - " ++ e2).data "错误".data = true
  rw [String.data_append]
  exact pyStartsWith_cuo _

/-- C6: errors are confined to their line.  (a) Evaluating a line never
touches any other line's stored entry, whatever the evaluation outcome —
the model of `_calculate_line` is total, so no exception escapes the line
boundary, and the only store mutation is `store_result` at that line's
key.  (b) When reference resolution of a non-blank line raises, the
raised message becomes the line's expression, every downstream evaluator
(numeric or equation) turns it into a `"错误..."` message string, and the
stored entry for that line is an error-kind entry (`result_type =
"error"`) carrying the human-readable message. -/
theorem errors_confined (backend : SolverBackend) (results : ResultStore)
    (n : Nat) (content : String) :
    (∀ m, m ≠ n → (calculate_line backend results n content).lookup m
        = results.lookup m) ∧
    (∀ err, (pyStrip content).data.isEmpty = false →
      (pyStripList (remove_comments (pyStrip content).data)).isEmpty = false →
      resolve_line_references results (remove_comments (pyStrip content).data)
          = .error err →
      ∃ rd, (calculate_line backend results n content).lookup n = some rd ∧
        rd.result_type = "error" ∧
        ∃ msg : String, rd.result = .strV msg ∧
          pyStartsWith msg.data "错误".data = true) := by
  constructor
  · intro m hm
    show List.lookup m
        (if (parse_expression content results).2.1 = true then results
         else store_result results n (parse_expression content results).2.2
           (if is_equation_check (parse_expression content results).1.data = true then
              PyVal.strV (solve_equation backend (parse_expression content results).1)
            else calculate (parse_expression content results).1)
           (is_equation_check (parse_expression content results).1.data))
      = List.lookup m results
    split
    · rfl
    · exact store_result_lookup_other results n m _ _ _ hm
  · intro err h0 h1 hres
    have hp : parse_expression content results
        = ("错误: 行引用解析失败 - " ++ err, false, pyStrip content) := by
      unfold parse_expression
      simp only [h0, h1, hres, Bool.false_eq_true, if_false]
    have hdata : ("错误: 行引用解析失败 - " ++ err).data
        = '错' :: ("误: 行引用解析失败 - ".data ++ err.data) := by
      rw [String.data_append]
      rfl
    by_cases hiq : is_equation_check ("错误: 行引用解析失败 - " ++ err).data = true
    · have hline : calculate_line backend results n content
          = store_result results n (pyStrip content)
              (.strV (solve_equation backend ("错误: 行引用解析失败 - " ++ err))) true := by
        simp only [calculate_line, hp, hiq]
        rfl
      rw [hline]
      refine ⟨_, store_result_lookup_self _ _ _ _ _, ?_, ?_⟩
      · show determine_result_type
            (.strV (solve_equation backend ("错误: 行引用解析失败 - " ++ err))) true
          = "error"
        simp only [determine_result_type]
        rw [if_pos (solve_equation_cuo backend err)]
      · exact ⟨solve_equation backend ("错误: 行引用解析失败 - " ++ err), rfl,
          solve_equation_cuo backend err⟩
    · obtain ⟨msg, hcal, hpre⟩ :=
        calculate_cuo ("错误: 行引用解析失败 - " ++ err) _ hdata
      have hiq' : is_equation_check ("错误: 行引用解析失败 - " ++ err).data = false := by
        simpa using hiq
      have hline : calculate_line backend results n content
          = store_result results n (pyStrip content)
              (calculate ("错误: 行引用解析失败 - " ++ err)) false := by
        simp only [calculate_line, hp, hiq', Bool.false_eq_true, if_false]
      rw [hline]
      refine ⟨_, store_result_lookup_self _ _ _ _ _, ?_, ?_⟩
      · simp only [mk_result_data]
        rw [hcal]
        simp only [determine_result_type]
        rw [if_pos hpre]
      · simp only [mk_result_data]
        exact ⟨msg, hcal, hpre⟩

theorem errors_confined_witness :
    ∃ rd, (calculate_line trivialBackend [] 1 "@9").lookup 1 = some rd ∧
      rd.result_type = "error" ∧
      ∃ msg : String, rd.result = .strV msg ∧
        pyStartsWith msg.data "错误".data = true :=
  (errors_confined trivialBackend [] 1 "@9").2 "第9行没有结果"
    (by decide) (by decide) rfl
